import Mathlib

/-!
Verification of the matching core of `off-the-grid` (grid-trading bot for a
constant-product AMM on a UTXO ledger).

Shallow embedding of the Rust sources:
  - `cli/src/spectrum/pool.rs`        (SpectrumPool, swap/quote math)
  - `cli/src/grid/grid_order.rs`      (GridOrder, into_filled, decoding)
  - `cli/src/grid/multigrid_order.rs` (MultiGridOrder, entries, with_entries)
  - `cli/src/boxes/liquidity_box.rs`  (multi-entry greedy filling engine)
  - `cli/src/commands/matcher.rs`     (BoxIdGate change detection)

Machine integers are modelled as `Nat`/`Int` with explicit bounds:
`u64` values are `Nat` (wrapping arithmetic written mod `U64_MOD` where the
source uses unchecked operators in release mode), `i64`/`i32`/`BigInt`
values are `Int`.  Rust `BigInt` division truncates toward zero and panics
on a zero divisor, so it is modelled by `Int.tdiv` guarded by a zero test.
Fallible Rust code returns `Option`/`PRes`; panics are an explicit `PRes`
constructor so that panic-freedom is a provable statement.
-/

/-! ## Machine-integer primitives -/

/-- `2^64`, the modulus of `u64` arithmetic. -/
def U64_MOD : Nat := 18446744073709551616

/-- `i64::MAX = 2^63 - 1`, the upper bound of ergo `BoxValue`/`TokenAmount`. -/
def I64_MAX : Nat := 9223372036854775807

/-- `2^63`, used for the two's-complement reinterpretation `u64 as i64`. -/
def TWO63 : Nat := 9223372036854775808

/-- ergo-lib `TokenAmount` invariant: amounts live in `1..=i64::MAX`. -/
def tokenAmountOk (n : Nat) : Prop := 1 ≤ n ∧ n ≤ I64_MAX

instance (n : Nat) : Decidable (tokenAmountOk n) :=
  inferInstanceAs (Decidable (_ ∧ _))

/-- ergo-lib `BoxValue` invariant: box values live in `1..=i64::MAX`. -/
def boxValueOk (n : Nat) : Prop := 1 ≤ n ∧ n ≤ I64_MAX

instance (n : Nat) : Decidable (boxValueOk n) :=
  inferInstanceAs (Decidable (_ ∧ _))

/-- The Rust cast `x as i64` applied to a `u64` value (two's-complement
reinterpretation). -/
def u64AsI64 (n : Nat) : Int :=
  if n % U64_MOD < TWO63 then ((n % U64_MOD : Nat) : Int)
  else ((n % U64_MOD : Nat) : Int) - (U64_MOD : Int)

/-- Wrapping `u64` addition (Rust `+` in release mode). -/
def u64WrapAdd (a b : Nat) : Nat := (a + b) % U64_MOD

/-- Wrapping `u64` subtraction (Rust `-` in release mode). -/
def u64WrapSub (a b : Nat) : Nat := (a % U64_MOD + (U64_MOD - b % U64_MOD)) % U64_MOD

/-- Wrapping `i64` arithmetic: reduce an exact integer into `[-2^63, 2^63-1]`. -/
def i64Wrap (z : Int) : Int := (z + TWO63) % (U64_MOD : Int) - TWO63

/-- `i64::checked_add`. -/
def i64CheckedAdd (a b : Int) : Option Int :=
  if -(TWO63 : Int) ≤ a + b ∧ a + b ≤ (I64_MAX : Int) then some (a + b) else none

/-- `i64::checked_sub`. -/
def i64CheckedSub (a b : Int) : Option Int :=
  if -(TWO63 : Int) ≤ a - b ∧ a - b ≤ (I64_MAX : Int) then some (a - b) else none

/-- ergo-lib `TokenAmount::checked_add`: `u64` checked addition followed by the
`1..=i64::MAX` bounds check. -/
def tokenCheckedAdd (a b : Nat) : Option Nat :=
  if a + b < U64_MOD then
    if a + b ≤ I64_MAX then some (a + b) else none
  else none

/-- ergo-lib `TokenAmount::checked_sub`: `u64` checked subtraction followed by
the `1..=i64::MAX` bounds check (a zero result is out of bounds). -/
def tokenCheckedSub (a b : Nat) : Option Nat :=
  if b ≤ a then
    if 1 ≤ a - b then some (a - b) else none
  else none

/-! ## Tokens, errors, results -/

/-- An ergo `Token`: asset id (abstracted to `Nat`) and raw `u64` amount. -/
structure SToken where
  tokenId : Nat
  amount : Nat
deriving DecidableEq, Repr

/-- `LiquidityProviderError` (`cli/src/boxes/liquidity_box.rs`), with
`SpectrumSwapError` variants folded in the way the `From` impl folds them. -/
inductive LPErr where
  | insufficientLiquidity
  | missingToken (id : Nat)
  | boxValueError
  | tokenAmountError
  | bigIntTruncated
  | other
deriving DecidableEq, Repr

/-- The panic sites reachable from the matching core.  The first two are the
`panic!` branches of `OrderMatchingState::fill_bid` / `fill_ask`; the others
are `unwrap`/`expect` calls and `BigInt` division by zero. -/
inductive PanicMsg where
  | cannotFillBidWhenAskFilled
  | cannotFillAskWhenBidFilled
  | unwrapNoneEntry
  | expectTokenAmount
  | divByZero
deriving DecidableEq, Repr

/-- Result of running Rust code that can return a value, return an error, or
panic. -/
inductive PRes (α : Type) where
  | ok (a : α)
  | err (e : LPErr)
  | panic (m : PanicMsg)
deriving DecidableEq, Repr

/-! ## SpectrumPool (`cli/src/spectrum/pool.rs`)

The `pool_nft`, `asset_lp` and `pool_type` fields take no part in the swap
math and are omitted.  `fee_num`/`fee_denom` are `i32` in the source and are
carried as `Int` (every `i32` embeds; the arithmetic below is `BigInt`). -/

structure SpectrumPool where
  asset_x : SToken
  asset_y : SToken
  fee_num : Int
  fee_denom : Int
deriving DecidableEq, Repr

/-- Common core of `output_amount`: compute
`to_amount * input * fee_num / (from_amount * fee_denom + input * fee_num)`
with `BigInt` arithmetic (`tdiv` = Rust `BigInt` division; zero divisor
panics), then `to_u64` (errors as `SpectrumSwapError::BigIntTruncated`,
converted to `InsufficientLiquidity`), then `TokenAmount::try_from`. -/
def outputAmountCore (fromR toR : SToken) (fee_num fee_denom : Int)
    (inputAmount : Nat) : PRes SToken :=
  let num : Int := (toR.amount : Int) * (inputAmount : Int) * fee_num
  let den : Int := (fromR.amount : Int) * fee_denom + (inputAmount : Int) * fee_num
  if den = 0 then .panic .divByZero
  else
    let q : Int := num.tdiv den
    if 0 ≤ q ∧ q < (U64_MOD : Int) then
      if 1 ≤ q ∧ q ≤ (I64_MAX : Int) then .ok ⟨toR.tokenId, q.toNat⟩
      else .err .tokenAmountError
    else .err .insufficientLiquidity

/-- `SpectrumPool::output_amount`. -/
def SpectrumPool.output_amount (p : SpectrumPool) (input : SToken) : PRes SToken :=
  if input.tokenId = p.asset_x.tokenId then
    outputAmountCore p.asset_x p.asset_y p.fee_num p.fee_denom input.amount
  else if input.tokenId = p.asset_y.tokenId then
    outputAmountCore p.asset_y p.asset_x p.fee_num p.fee_denom input.amount
  else .err (.missingToken input.tokenId)

/-- Common core of `input_amount`: compute
`from_amount * output * fee_denom / ((to_amount - output) * fee_num) + 1`
with `BigInt` arithmetic, then `to_u64` (errors as
`LiquidityProviderError::BigIntTruncated`), then `TokenAmount::try_from`. -/
def inputAmountCore (fromR toR : SToken) (fee_num fee_denom : Int)
    (outputAmount : Nat) : PRes SToken :=
  let num : Int := (fromR.amount : Int) * (outputAmount : Int) * fee_denom
  let den : Int := ((toR.amount : Int) - (outputAmount : Int)) * fee_num
  if den = 0 then .panic .divByZero
  else
    let q : Int := num.tdiv den + 1
    if 0 ≤ q ∧ q < (U64_MOD : Int) then
      if 1 ≤ q ∧ q ≤ (I64_MAX : Int) then .ok ⟨fromR.tokenId, q.toNat⟩
      else .err .tokenAmountError
    else .err .bigIntTruncated

/-- `SpectrumPool::input_amount`.  Note the selection: an output in `asset_y`
is paid from `asset_x` and vice versa. -/
def SpectrumPool.input_amount (p : SpectrumPool) (output : SToken) : PRes SToken :=
  if output.tokenId = p.asset_y.tokenId then
    inputAmountCore p.asset_x p.asset_y p.fee_num p.fee_denom output.amount
  else if output.tokenId = p.asset_x.tokenId then
    inputAmountCore p.asset_y p.asset_x p.fee_num p.fee_denom output.amount
  else .err (.missingToken output.tokenId)

/-- `SpectrumPool::with_swap`: compute the output, then update both reserves
with `TokenAmount` checked arithmetic. -/
def SpectrumPool.with_swap (p : SpectrumPool) (input : SToken) : PRes SpectrumPool :=
  match p.output_amount input with
  | .err e => .err e
  | .panic m => .panic m
  | .ok output =>
    if input.tokenId = p.asset_x.tokenId then
      match tokenCheckedAdd p.asset_x.amount input.amount with
      | none => .err .tokenAmountError
      | some xa =>
        match tokenCheckedSub p.asset_y.amount output.amount with
        | none => .err .tokenAmountError
        | some ya =>
          .ok { p with asset_x := ⟨p.asset_x.tokenId, xa⟩,
                       asset_y := ⟨p.asset_y.tokenId, ya⟩ }
    else
      match tokenCheckedSub p.asset_x.amount output.amount with
      | none => .err .tokenAmountError
      | some xa =>
        match tokenCheckedAdd p.asset_y.amount input.amount with
        | none => .err .tokenAmountError
        | some ya =>
          .ok { p with asset_x := ⟨p.asset_x.tokenId, xa⟩,
                       asset_y := ⟨p.asset_y.tokenId, ya⟩ }

/-! ## GridOrder (`cli/src/grid/grid_order.rs`)

`owner_ec_point` and `metadata` take no part in any computation the claims
touch and are omitted.  `value` is the raw `u64` of the box's `BoxValue`. -/

def MIN_BOX_VALUE : Nat := 1000000

inductive OrderState where
  | buy
  | sell
deriving DecidableEq, Repr

structure GridOrder where
  bid_value : Nat
  ask_value : Nat
  token : SToken
  state : OrderState
  value : Nat
deriving DecidableEq, Repr

/-- `GridOrder::new`: initial collateral is `MIN_BOX_VALUE` for a Sell order
and `MIN_BOX_VALUE + bid_value` (unchecked `u64` add) for a Buy order,
converted through `BoxValue::try_from`. -/
def GridOrder.new (bid ask : Nat) (token : SToken) (state : OrderState) :
    Option GridOrder :=
  let raw : Nat :=
    match state with
    | .sell => MIN_BOX_VALUE
    | .buy => u64WrapAdd MIN_BOX_VALUE bid
  if boxValueOk raw then some ⟨bid, ask, token, state, raw⟩ else none

/-- `GridOrder::into_filled`: Sell adds `ask_value` to the collateral and
flips to Buy; Buy subtracts `bid_value` and flips to Sell.  The `u64`
arithmetic is unchecked (wraps in release mode); `BoxValue::try_from` then
rejects anything outside `1..=i64::MAX`. -/
def GridOrder.into_filled (o : GridOrder) : Option GridOrder :=
  let raw : Nat :=
    match o.state with
    | .sell => u64WrapAdd o.value o.ask_value
    | .buy => u64WrapSub o.value o.bid_value
  let newState : OrderState :=
    match o.state with
    | .sell => .buy
    | .buy => .sell
  if boxValueOk raw then some { o with value := raw, state := newState } else none

/-- `TryFrom<&ErgoBox> for GridOrder`, after register extraction: `value` is
the box's `BoxValue` raw value, `tokens` its token list, `bid`/`ask` the
`i64` pair in R5, `tokenId`/`amount` the pair in R6.  Register decoding
itself belongs to the excluded collaborator; this models the `i64 → u64`
conversions (failing on negatives), the `TokenAmount` conversion, and the
state validation `match`. -/
def gridOrderDecode (value : Nat) (tokens : Option (List SToken))
    (bid ask : Int) (tokenId : Nat) (amount : Int) : Option GridOrder :=
  let state : OrderState := match tokens with | none => .buy | some _ => .sell
  if 0 ≤ bid ∧ 0 ≤ ask ∧ 0 ≤ amount then
    if tokenAmountOk amount.toNat then
      let order : GridOrder :=
        ⟨bid.toNat, ask.toNat, ⟨tokenId, amount.toNat⟩, state, value⟩
      let min_value : Nat := MIN_BOX_VALUE + bid.toNat
      match state, tokens with
      | .buy, some _ => none
      | .buy, none => if value < min_value then none else some order
      | .sell, none => none
      | .sell, some ts =>
        match ts with
        | [t] =>
          if t.tokenId ≠ tokenId then none
          else if t.amount ≠ amount.toNat then none
          else some order
        | _ => none
    else none
  else none

/-! ## Fraction ordering (`cli/src/units.rs`, `Fraction = GenericFraction<u128>`)

`bid()`/`ask()` build nonnegative fractions `value / token_amount` (both
`u64`, so the `u128` arithmetic below is exact).  The crate's total order:
NaN (`0/0`) below everything, `+∞` (`a/0`, `a > 0`) above every finite
value, finite values compared as rationals. -/

def fracLe (a b c d : Nat) : Bool :=
  if b = 0 then
    if a = 0 then true
    else decide (d = 0 ∧ c ≠ 0)
  else
    if d = 0 then
      if c = 0 then false else true
    else decide (a * d ≤ c * b)

def fracLt (a b c d : Nat) : Bool :=
  if b = 0 then
    if a = 0 then decide (¬ (d = 0 ∧ c = 0))
    else false
  else
    if d = 0 then
      if c = 0 then false else true
    else decide (a * d < c * b)

/-! ## GridOrderEntry / GridOrderEntries (`cli/src/grid/multigrid_order.rs`) -/

structure GridOrderEntry where
  state : OrderState
  token_amount : Nat
  bid_value : Nat
  ask_value : Nat
deriving DecidableEq, Repr

/-- Sum of `bid_value` over the entries currently in `Buy` state — the
collateral quantity of the §3 invariant and of `MultiGridOrder::new`. -/
def buyBidSum (es : List GridOrderEntry) : Nat :=
  ((es.filter (fun e => e.state == OrderState.buy)).map (·.bid_value)).sum

/-- Sum of `ask_value` over all entries. -/
def askSum (es : List GridOrderEntry) : Nat :=
  (es.map (·.ask_value)).sum

/-- Sum of `bid_value` over all entries (the summand of the multi-grid
decoder's `min_value`). -/
def allBidSum (es : List GridOrderEntry) : Nat :=
  (es.map (·.bid_value)).sum

/-- Sum of `token_amount` over `Sell` entries (the multi-grid decoder's
`expected_token_amount`). -/
def sellTokenSum (es : List GridOrderEntry) : Nat :=
  (es.filterMap
    (fun e => if e.state == OrderState.sell then some e.token_amount else none)).sum

/-- `GridOrderEntries::bid_entry` (and `bid_entry_mut`): among `Buy` entries,
the maximiser of `bid() = Fraction(bid_value, token_amount)`; Rust
`max_by_key` keeps the last maximiser.  Returns index and entry.  (Explicit
recursion over the enumerated entries, equivalent to the iterator fold.) -/
def bidEntrySelAux :
    Option (Nat × GridOrderEntry) → List (Nat × GridOrderEntry) →
    Option (Nat × GridOrderEntry)
  | best, [] => best
  | best, ie :: rest =>
    if ie.2.state = OrderState.buy then
      match best with
      | none => bidEntrySelAux (some ie) rest
      | some je =>
        if fracLe je.2.bid_value je.2.token_amount ie.2.bid_value ie.2.token_amount
        then bidEntrySelAux (some ie) rest
        else bidEntrySelAux (some je) rest
    else bidEntrySelAux best rest

def bidEntrySel (es : List GridOrderEntry) : Option (Nat × GridOrderEntry) :=
  bidEntrySelAux none es.enum

/-- `GridOrderEntries::ask_entry` (and `ask_entry_mut`): among `Sell`
entries, the minimiser of `ask() = Fraction(ask_value, token_amount)`; Rust
`min_by_key` keeps the first minimiser. -/
def askEntrySelAux :
    Option (Nat × GridOrderEntry) → List (Nat × GridOrderEntry) →
    Option (Nat × GridOrderEntry)
  | best, [] => best
  | best, ie :: rest =>
    if ie.2.state = OrderState.sell then
      match best with
      | none => askEntrySelAux (some ie) rest
      | some je =>
        if fracLt ie.2.ask_value ie.2.token_amount je.2.ask_value je.2.token_amount
        then askEntrySelAux (some ie) rest
        else askEntrySelAux (some je) rest
    else askEntrySelAux best rest

def askEntrySel (es : List GridOrderEntry) : Option (Nat × GridOrderEntry) :=
  askEntrySelAux none es.enum

/-- Flip the state of the entry at index `i` (the in-place mutation through
`bid_entry_mut`/`ask_entry_mut`). -/
def setStateAt (es : List GridOrderEntry) (i : Nat) (s : OrderState) :
    List GridOrderEntry :=
  es.enum.map (fun je => if je.1 = i then { je.2 with state := s } else je.2)

/-- `GridOrderEntries::into_fill_bid`: flip the current best bid entry to Sell. -/
def intoFillBid (es : List GridOrderEntry) : Option (List GridOrderEntry) :=
  (bidEntrySel es).map (fun ie => setStateAt es ie.1 .sell)

/-- `GridOrderEntries::into_fill_ask`: flip the current best ask entry to Buy. -/
def intoFillAsk (es : List GridOrderEntry) : Option (List GridOrderEntry) :=
  (askEntrySel es).map (fun ie => setStateAt es ie.1 .buy)

/-! ## MultiGridOrder -/

structure MultiGridOrder where
  token_id : Nat
  entries : List GridOrderEntry
  value : Nat
deriving DecidableEq, Repr

/-- `MultiGridOrder::new`: `value` is the `try_fold` of `MIN_BOX_VALUE` with
`u64::checked_add` over the `bid_value`s of the `Buy` entries, then
`BoxValue::try_from`. -/
def MultiGridOrder.new (token_id : Nat) (entries : List GridOrderEntry) :
    Option MultiGridOrder :=
  match
    (entries.filter (fun e => e.state == OrderState.buy)).foldl
      (fun acc e =>
        acc.bind (fun a =>
          if a + e.bid_value < U64_MOD then some (a + e.bid_value) else none))
      (some MIN_BOX_VALUE)
  with
  | none => none
  | some v => if boxValueOk v then some ⟨token_id, entries, v⟩ else none

/-- The fold body of `MultiGridOrder::with_entries`: adjust the `i64` value
by `- old.bid_value` on Buy→Sell and `+ old.ask_value` on Sell→Buy
(unchecked `i64` arithmetic with `u64 as i64` casts). -/
def weStep (v : Int) (pr : GridOrderEntry × GridOrderEntry) : Int :=
  match pr.1.state, pr.2.state with
  | .buy, .sell => i64Wrap (v - u64AsI64 pr.1.bid_value)
  | .sell, .buy => i64Wrap (v + u64AsI64 pr.1.ask_value)
  | _, _ => v

/-- `MultiGridOrder::with_entries`: fold `weStep` over `zip old new`, then
`BoxValue::try_from` on the resulting `i64`. -/
def MultiGridOrder.with_entries (o : MultiGridOrder)
    (entries : List GridOrderEntry) : Option MultiGridOrder :=
  let v : Int := (o.entries.zip entries).foldl weStep (u64AsI64 o.value)
  if 1 ≤ v ∧ v ≤ (I64_MAX : Int) then some ⟨o.token_id, entries, v.toNat⟩
  else none

/-- `TryFrom<&ErgoBox> for MultiGridOrder`, after register extraction.  The
`u64` sums wrap (unchecked `Sum` in release mode), hence the `% U64_MOD`. -/
def multiGridDecode (value : Nat) (tokens : Option (List SToken))
    (tokenId : Nat) (entries : List GridOrderEntry) : Option MultiGridOrder :=
  let order : MultiGridOrder := ⟨tokenId, entries, value⟩
  let min_value : Nat := (allBidSum entries + MIN_BOX_VALUE) % U64_MOD
  let expected : Nat := sellTokenSum entries % U64_MOD
  match tokens with
  | none =>
    if expected > 0 then none
    else if value < min_value then none
    else some order
  | some ts =>
    if expected = 0 then none
    else
      match ts with
      | [t] =>
        if t.tokenId ≠ tokenId then none
        else if t.amount ≠ expected then none
        else some order
      | _ => none

/-! ## Multi-entry filling engine (`cli/src/boxes/liquidity_box.rs`)

The engine is generic over `T: LiquidityProvider`; the trait is modelled as a
record of functions over an abstract provider type `P`. -/

structure LPI (P : Type) where
  asset_x : P → SToken
  asset_y : P → SToken
  output_amount : P → SToken → PRes SToken
  input_amount : P → SToken → PRes SToken
  with_swap : P → SToken → PRes P

/-- The `LiquidityProvider` impl of `SpectrumPool`. -/
def spectrumLPI : LPI SpectrumPool where
  asset_x := (·.asset_x)
  asset_y := (·.asset_y)
  output_amount := SpectrumPool.output_amount
  input_amount := SpectrumPool.input_amount
  with_swap := SpectrumPool.with_swap

/-- `OrderMatchingState`: `NotMatched` holds (a reference to) the order's
original entries; once one side has been filled, only that side may fill
again. -/
inductive MatchState where
  | notMatched (es : List GridOrderEntry)
  | matchedBid (es : List GridOrderEntry)
  | matchedAsk (es : List GridOrderEntry)
deriving DecidableEq, Repr

/-- `OrderMatchingState::fill_bid`.  The `unwrap` on `bid_entry_mut` is the
`unwrapNoneEntry` panic; calling it on `MatchedAsk` is the
`cannotFillBidWhenAskFilled` panic. -/
def MatchState.fill_bid : MatchState → Except PanicMsg MatchState
  | .notMatched es =>
    match bidEntrySel es with
    | some ie => .ok (.matchedBid (setStateAt es ie.1 .sell))
    | none => .error .unwrapNoneEntry
  | .matchedBid es =>
    match bidEntrySel es with
    | some ie => .ok (.matchedBid (setStateAt es ie.1 .sell))
    | none => .error .unwrapNoneEntry
  | .matchedAsk _ => .error .cannotFillBidWhenAskFilled

/-- `OrderMatchingState::fill_ask`. -/
def MatchState.fill_ask : MatchState → Except PanicMsg MatchState
  | .notMatched es =>
    match askEntrySel es with
    | some ie => .ok (.matchedAsk (setStateAt es ie.1 .buy))
    | none => .error .unwrapNoneEntry
  | .matchedBid _ => .error .cannotFillAskWhenBidFilled
  | .matchedAsk es =>
    match askEntrySel es with
    | some ie => .ok (.matchedAsk (setStateAt es ie.1 .buy))
    | none => .error .unwrapNoneEntry

structure SurplusResult where
  matched_state : OrderState
  new_x : Int
  new_y : Int
  surplus : Int
deriving DecidableEq, Repr

/-- `calculate_surplus`: apply the entry's deltas to the running `(cur_x,
cur_y)` with `i64` checked arithmetic (`None` means the candidate is
skipped), then quote the provider for the resulting net `y` delta.  The
`expect("non-zero")` on `new_y.unsigned_abs().try_into()` panics exactly
when `new_y = i64::MIN`. -/
def calcSurplus {P : Type} (I : LPI P) (p : P) (e : GridOrderEntry)
    (cx cy : Int) : Except PanicMsg (Option SurplusResult) :=
  let deltas : Option (Int × Int) :=
    match e.state with
    | .buy =>
      match i64CheckedAdd cx (u64AsI64 e.bid_value),
            i64CheckedSub cy (u64AsI64 e.token_amount) with
      | some nx, some ny => some (nx, ny)
      | _, _ => none
    | .sell =>
      match i64CheckedSub cx (u64AsI64 e.ask_value),
            i64CheckedAdd cy (u64AsI64 e.token_amount) with
      | some nx, some ny => some (nx, ny)
      | _, _ => none
  match deltas with
  | none => .ok none
  | some (nx, ny) =>
    if 0 < ny then
      match I.output_amount p ⟨(I.asset_y p).tokenId, ny.toNat⟩ with
      | .panic m => .error m
      | .err _ => .ok none
      | .ok output =>
        match i64CheckedAdd nx (u64AsI64 output.amount) with
        | some s => .ok (some ⟨e.state, nx, ny, s⟩)
        | none => .ok none
    else if ny < 0 then
      if I64_MAX < (-ny).toNat then .error .expectTokenAmount
      else
        match I.input_amount p ⟨(I.asset_y p).tokenId, (-ny).toNat⟩ with
        | .panic m => .error m
        | .err _ => .ok none
        | .ok input =>
          match i64CheckedSub nx (u64AsI64 input.amount) with
          | some s => .ok (some ⟨e.state, nx, ny, s⟩)
          | none => .ok none
    else .ok (some ⟨e.state, nx, ny, nx⟩)

/-- `OrderMatchingState::state_surplus`.  (In the source the `NotMatched`
combination destructures `(bid_surplus, ask_surplus)` under the swapped
names `(ask, bid)`; semantically it returns the bid result when its surplus
is strictly greater and the ask result otherwise, as written here.) -/
def MatchState.state_surplus {P : Type} (I : LPI P) (p : P) (cx cy : Int) :
    MatchState → Except PanicMsg (Option SurplusResult)
  | .notMatched es =>
    match
      (match bidEntrySel es with
       | some ie => calcSurplus I p ie.2 cx cy
       | none => .ok none)
    with
    | .error m => .error m
    | .ok bidS =>
      match
        (match askEntrySel es with
         | some ie => calcSurplus I p ie.2 cx cy
         | none => .ok none)
      with
      | .error m => .error m
      | .ok askS =>
        .ok
          (match bidS, askS with
          | none, none => none
          | none, some a => some a
          | some b, none => some b
          | some b, some a => if b.surplus > a.surplus then some b else some a)
  | .matchedBid es =>
    match bidEntrySel es with
    | some ie => calcSurplus I p ie.2 cx cy
    | none => .ok none
  | .matchedAsk es =>
    match askEntrySel es with
    | some ie => calcSurplus I p ie.2 cx cy
    | none => .ok none

structure MultiLoopState where
  states : List MatchState
  dx : Int
  dy : Int
  surplus : Int
deriving DecidableEq, Repr

/-- One pass of the candidate scan inside `fill_orders`: every state's
`state_surplus` in order, then the reserve-overflow filter.  (Explicit
recursion over the enumerated states; equivalent to the iterator chain.) -/
def collectCandidatesAux {P : Type} (I : LPI P) (p : P) (dx dy : Int) :
    List (Nat × MatchState) → List (Nat × MatchState × SurplusResult) →
    Except PanicMsg (List (Nat × MatchState × SurplusResult))
  | [], acc => .ok acc
  | ist :: rest, acc =>
    match ist.2.state_surplus I p dx dy with
    | .error m => .error m
    | .ok none => collectCandidatesAux I p dx dy rest acc
    | .ok (some r) =>
      let yOv := (i64CheckedAdd (u64AsI64 (I.asset_y p).amount) r.new_y).isNone
      let xOv := (i64CheckedAdd (u64AsI64 (I.asset_x p).amount) r.new_x).isNone
      if ¬ yOv ∧ ¬ xOv then
        collectCandidatesAux I p dx dy rest (acc ++ [(ist.1, ist.2, r)])
      else collectCandidatesAux I p dx dy rest acc

def collectCandidates {P : Type} (I : LPI P) (p : P) (states : List MatchState)
    (dx dy : Int) : Except PanicMsg (List (Nat × MatchState × SurplusResult)) :=
  collectCandidatesAux I p dx dy states.enum []

/-- `max_by_key` over the filtered candidates (last maximiser on ties). -/
def chooseBestAux :
    Option (Nat × MatchState × SurplusResult) →
    List (Nat × MatchState × SurplusResult) →
    Option (Nat × MatchState × SurplusResult)
  | best, [] => best
  | none, c :: rest => chooseBestAux (some c) rest
  | some b, c :: rest =>
    chooseBestAux (if b.2.2.surplus ≤ c.2.2.surplus then some c else some b) rest

def chooseBest (cands : List (Nat × MatchState × SurplusResult)) :
    Option (Nat × MatchState × SurplusResult) :=
  chooseBestAux none cands

/-- One iteration of the `loop` in `FillMultiGridOrders::fill_orders`:
`some s'` means a fill was committed, `none` means the loop breaks. -/
def multiStep {P : Type} (I : LPI P) (p : P) (s : MultiLoopState) :
    Except PanicMsg (Option MultiLoopState) :=
  match collectCandidates I p s.states s.dx s.dy with
  | .error m => .error m
  | .ok cands =>
    match chooseBest cands with
    | some (i, st, r) =>
      if r.surplus > s.surplus then
        match
          (match r.matched_state with
           | .buy => st.fill_bid
           | .sell => st.fill_ask)
        with
        | .error m => .error m
        | .ok st' => .ok (some ⟨s.states.set i st', r.new_x, r.new_y, r.surplus⟩)
      else .ok none
    | none => .ok none

/-- The `loop`, with explicit fuel (the Rust loop terminates because every
commit flips one more entry; running out of fuel returns the current state). -/
def multiLoop {P : Type} (I : LPI P) (p : P) :
    Nat → MultiLoopState → Except PanicMsg MultiLoopState
  | 0, s => .ok s
  | fuel + 1, s =>
    match multiStep I p s with
    | .error m => .error m
    | .ok none => .ok s
    | .ok (some s') => multiLoop I p fuel s'

/-- `FillMultiGridOrders::fill_orders` for a provider `p`: run the greedy
loop from all-`NotMatched` states and zero deltas, rebuild the touched
orders through `with_entries` (orders whose rebuild fails are dropped), then
apply one net swap for the final `y` delta. -/
def multiFillOrders {P : Type} (I : LPI P) (p : P)
    (orders : List MultiGridOrder) (fuel : Nat) :
    PRes (P × List (MultiGridOrder × MultiGridOrder)) :=
  let init : MultiLoopState :=
    ⟨orders.map (fun o => .notMatched o.entries), 0, 0, 0⟩
  match multiLoop I p fuel init with
  | .error m => .panic m
  | .ok fin =>
    let newEntries : List (Option (List GridOrderEntry)) :=
      fin.states.map
        (fun st =>
          match st with
          | .notMatched _ => none
          | .matchedBid es => some es
          | .matchedAsk es => some es)
    let filled : List (MultiGridOrder × MultiGridOrder) :=
      (newEntries.zip orders).filterMap
        (fun eo =>
          match eo.1 with
          | none => none
          | some es => (eo.2.with_entries es).map (fun f => (eo.2, f)))
    if 0 < fin.dy then
      match I.with_swap p ⟨(I.asset_y p).tokenId, fin.dy.toNat⟩ with
      | .ok p' => .ok (p', filled)
      | .err e => .err e
      | .panic m => .panic m
    else if fin.dy < 0 then
      if I64_MAX < (-fin.dy).toNat then .panic .expectTokenAmount
      else
        match I.input_amount p ⟨(I.asset_y p).tokenId, (-fin.dy).toNat⟩ with
        | .err e => .err e
        | .panic m => .panic m
        | .ok input =>
          match I.with_swap p input with
          | .ok p' => .ok (p', filled)
          | .err e => .err e
          | .panic m => .panic m
    else .ok (p, filled)

/-! ## BoxIdGate (`cli/src/commands/matcher.rs`)

The `HashSet<BoxId>` is modelled as a `Finset Nat`; the two `Vec`s the
source returns are produced by iterating hash sets in unspecified order, so
they are modelled as the sets themselves. -/

structure BoxIdGate where
  current_ids : Finset Nat
deriving DecidableEq

/-- `BoxIdGate::check_box_ids`: `none` when the new id set has no id absent
from the stored set; otherwise `(spent_ids, new_ids)` together with the
updated gate. -/
def BoxIdGate.check_box_ids (g : BoxIdGate) (box_ids : List Nat) :
    BoxIdGate × Option (Finset Nat × Finset Nat) :=
  let new_id_set := box_ids.toFinset
  let new_ids := new_id_set \ g.current_ids
  if new_ids = ∅ then (g, none)
  else (⟨new_id_set⟩, some (g.current_ids \ new_id_set, new_ids))

/-! ## Single-order filling engine (`FillGridOrders`)

Modelled from the spec: the `impl` of `FillGridOrders` for liquidity
providers is not present under `src/` — only the trait declaration
(`cli/src/grid/grid_order.rs`), the tests that call it and the caller in
`cli/src/commands/matcher.rs` are.  The model follows spec §4.2: cumulative
`(total_input, total_output)` totals, candidates quoted against the
cumulative totals, positive-surplus filter, maximum-surplus commit through
`into_filled`, and one net swap at the end that fails (not truncates) when
the accumulated total does not convert to a token amount. -/

structure SingleLoopState where
  remaining : List GridOrder
  chosen : List (GridOrder × GridOrder)
  total_in : Nat
  total_out : Nat
deriving DecidableEq, Repr

structure SingleCand where
  order : GridOrder
  filled : GridOrder
  new_in : Nat
  new_out : Nat
  surplus : Int
deriving DecidableEq, Repr

/-- Modelled from the spec: the candidate a still-unfilled order contributes,
relative to the current cumulative totals.  A Buy order asks the pool for
`total_out + amount` of the traded asset and is charged the pool's inverse
quote; its surplus is its bid value minus the incremental cost.  A Sell
order feeds `total_in + amount` into the pool; its surplus is the
incremental proceeds minus its ask value.  Orders whose quote fails or whose
cumulative amount is not a representable token amount are not eligible
(liquidity errors drop the candidate, per spec §7). -/
def singleCandidate {P : Type} (I : LPI P) (p : P) (s : SingleLoopState)
    (o : GridOrder) : Option SingleCand :=
  match o.state with
  | .buy =>
    let ny := s.total_out + o.token.amount
    if tokenAmountOk ny then
      match I.input_amount p ⟨(I.asset_y p).tokenId, ny⟩ with
      | .ok cost =>
        let surplus : Int :=
          (o.bid_value : Int) - ((cost.amount : Int) - (s.total_in : Int))
        (o.into_filled).map (fun f => ⟨o, f, cost.amount, ny, surplus⟩)
      | _ => none
    else none
  | .sell =>
    let ny := s.total_in + o.token.amount
    if tokenAmountOk ny then
      match I.output_amount p ⟨(I.asset_y p).tokenId, ny⟩ with
      | .ok got =>
        let surplus : Int :=
          ((got.amount : Int) - (s.total_out : Int)) - (o.ask_value : Int)
        (o.into_filled).map (fun f => ⟨o, f, ny, got.amount, surplus⟩)
      | _ => none
    else none

/-- Modelled from the spec: one iteration — gather candidates with strictly
positive surplus, pick the maximum-surplus one, commit it (`none` = stop). -/
def singleStep {P : Type} (I : LPI P) (p : P) (s : SingleLoopState) :
    Option SingleLoopState :=
  let cands : List (Nat × SingleCand) :=
    (s.remaining.enum.filterMap
        (fun io => (singleCandidate I p s io.2).map (fun c => (io.1, c)))).filter
      (fun ic => decide (0 < ic.2.surplus))
  match
    cands.foldl
      (fun best c =>
        match best with
        | none => some c
        | some b => if b.2.surplus ≤ c.2.surplus then some c else some b)
      none
  with
  | some (i, c) =>
    some ⟨s.remaining.eraseIdx i, s.chosen ++ [(c.order, c.filled)],
          c.new_in, c.new_out⟩
  | none => none

/-- Modelled from the spec: the greedy loop, with explicit fuel (each commit
removes one order, so `orders.length` fuel suffices). -/
def singleLoop {P : Type} (I : LPI P) (p : P) :
    Nat → SingleLoopState → SingleLoopState
  | 0, s => s
  | fuel + 1, s =>
    match singleStep I p s with
    | some s' => singleLoop I p fuel s'
    | none => s

/-- Modelled from the spec: `FillGridOrders::fill_orders`.  `state` is the
direction of the pass (the input set is filtered to one `OrderState`
beforehand); after the loop one net swap is applied for the cumulative
total — the pool's input asset is the numeraire for a Buy pass and the
traded asset for a Sell pass.  A cumulative total that does not fit a token
amount is an error, never a truncation. -/
def singleFillOrders {P : Type} (I : LPI P) (p : P) (orders : List GridOrder)
    (state : OrderState) (fuel : Nat) :
    PRes (P × List (GridOrder × GridOrder)) :=
  let init : SingleLoopState :=
    ⟨orders.filter (fun o => o.state == state), [], 0, 0⟩
  let fin := singleLoop I p fuel init
  if fin.total_in = 0 ∧ fin.total_out = 0 then .ok (p, fin.chosen)
  else
    if tokenAmountOk fin.total_in then
      let inputId : Nat :=
        match state with
        | .buy => (I.asset_x p).tokenId
        | .sell => (I.asset_y p).tokenId
      match I.with_swap p ⟨inputId, fin.total_in⟩ with
      | .ok p' => .ok (p', fin.chosen)
      | .err e => .err e
      | .panic m => .panic m
    else .err .tokenAmountError

/-! ## Auxiliary definitions used by the statements -/

/-- A sequence of swaps, each feeding the pool returned by the previous one. -/
def swapSeq (p : SpectrumPool) : List SToken → PRes SpectrumPool
  | [] => .ok p
  | t :: ts =>
    match p.with_swap t with
    | .ok p' => swapSeq p' ts
    | .err e => .err e
    | .panic m => .panic m

/-- `true` exactly on the two wrong-side panics of
`OrderMatchingState::fill_bid`/`fill_ask`. -/
def isWrongSidePanic {α : Type} : PRes α → Bool
  | .panic .cannotFillBidWhenAskFilled => true
  | .panic .cannotFillAskWhenBidFilled => true
  | _ => false


/-- Concrete single-engine scenario used by the C8 witness. -/
def w8pool : SpectrumPool := ⟨⟨0, 1000000000⟩, ⟨1, 10000⟩, 998, 1000⟩

def w8order : GridOrder := ⟨50000, 40000, ⟨1, 500⟩, .sell, 1000000⟩

def w8filled : GridOrder := ⟨50000, 40000, ⟨1, 500⟩, .buy, 1040000⟩

def w8fin : SingleLoopState := ⟨[], [(w8order, w8filled)], 500, 47528336⟩

def w8pool' : SpectrumPool := ⟨⟨0, 952471664⟩, ⟨1, 10500⟩, 998, 1000⟩

/-- Concrete values and auxiliary instances used by witnesses and
counterexamples. -/
def c4o : GridOrder := ⟨100, 200, ⟨3, 10⟩, .buy, 1000100⟩

def c2pool : SpectrumPool := ⟨⟨0, 1000000000⟩, ⟨3, 1000⟩, 998, 1000⟩

def c5o : MultiGridOrder := ⟨3, [⟨.sell, 10, 100, 200⟩], 1000000⟩

instance {ε α : Type} [DecidableEq ε] [DecidableEq α] : DecidableEq (Except ε α) :=
  fun a b =>
    match a, b with
    | .error e, .error f =>
      if h : e = f then isTrue (congrArg Except.error h)
      else isFalse (fun hc => h (Except.error.inj hc))
    | .error _, .ok _ => isFalse (fun hc => Except.noConfusion hc)
    | .ok _, .error _ => isFalse (fun hc => Except.noConfusion hc)
    | .ok x, .ok y =>
      if h : x = y then isTrue (congrArg Except.ok h)
      else isFalse (fun hc => h (Except.ok.inj hc))

def w3I : LPI Unit where
  asset_x := fun _ => ⟨0, 1000⟩
  asset_y := fun _ => ⟨9, 1000⟩
  output_amount := fun _ _ => .ok ⟨0, 1⟩
  input_amount := fun _ _ => .ok ⟨0, 1⟩
  with_swap := fun _ _ => .ok ()

def w3s : MultiLoopState := ⟨[.notMatched [⟨.buy, 10, 100, 200⟩]], 0, 0, 0⟩

/-- A provider that never reports the engine's wrong-side panic messages
(every well-behaved provider; `SpectrumPool` in particular). -/
def lpiNoWrongPanic {P : Type} (I : LPI P) (p : P) : Prop :=
  (∀ t, isWrongSidePanic (I.output_amount p t) = false) ∧
  (∀ t, isWrongSidePanic (I.input_amount p t) = false) ∧
  (∀ t, isWrongSidePanic (I.with_swap p t) = false)

/-! # Theorems -/

/-! ## Shared numeric lemmas -/

theorem u64WrapAdd_eq {a b : Nat} (h : a + b < U64_MOD) : u64WrapAdd a b = a + b :=
  Nat.mod_eq_of_lt h

theorem u64WrapSub_of_le {a b : Nat} (hb : b ≤ a) (ha : a < U64_MOD) :
    u64WrapSub a b = a - b := by
  unfold u64WrapSub
  rw [Nat.mod_eq_of_lt ha, Nat.mod_eq_of_lt (lt_of_le_of_lt hb ha)]
  have h1 : a + (U64_MOD - b) = U64_MOD + (a - b) := by
    unfold U64_MOD at *; omega
  rw [h1, Nat.add_mod_left]
  exact Nat.mod_eq_of_lt (by unfold U64_MOD at *; omega)

theorem u64WrapSub_of_lt {a b : Nat} (hab : a < b) (hb : b < U64_MOD) :
    u64WrapSub a b = a + U64_MOD - b := by
  unfold u64WrapSub
  rw [Nat.mod_eq_of_lt (lt_trans hab hb), Nat.mod_eq_of_lt hb]
  have h1 : a + (U64_MOD - b) = a + U64_MOD - b := by
    unfold U64_MOD at *; omega
  rw [h1]
  exact Nat.mod_eq_of_lt (by unfold U64_MOD at *; omega)

theorem i64Wrap_eq_self {z : Int} (h1 : -(TWO63 : Int) ≤ z)
    (h2 : z ≤ (I64_MAX : Int)) : i64Wrap z = z := by
  unfold i64Wrap
  unfold TWO63 U64_MOD I64_MAX at *
  push_cast at *
  omega

theorem u64AsI64_eq {n : Nat} (h : n ≤ I64_MAX) : u64AsI64 n = (n : Int) := by
  unfold u64AsI64
  unfold I64_MAX at h
  rw [Nat.mod_eq_of_lt (by unfold U64_MOD; omega)]
  rw [if_pos (by unfold TWO63; omega)]

theorem tdiv_coe_nat (a b : Nat) : (a : Int).tdiv (b : Int) = ((a / b : Nat) : Int) := by
  exact_mod_cast Int.ofNat_tdiv a b

/-! ## C7 — BoxIdGate change detection -/

/-- C7: `check_box_ids` returns `none` exactly when the new id set contains
no id absent from the stored set (hence also on a repeated identical set and
on pure removals, with the gate unchanged); otherwise it returns the removed
and added ids and replaces the stored set; a second call with the same ids
always returns `none`. -/
theorem boxIdGate_check_spec (g : BoxIdGate) (ids : List Nat) :
    ((g.check_box_ids ids).2 = none ↔ ids.toFinset ⊆ g.current_ids) ∧
    ((g.check_box_ids ids).2 = none → (g.check_box_ids ids).1 = g) ∧
    (∀ spent fresh, (g.check_box_ids ids).2 = some (spent, fresh) →
        spent = g.current_ids \ ids.toFinset ∧
        fresh = ids.toFinset \ g.current_ids ∧ fresh ≠ ∅ ∧
        (g.check_box_ids ids).1 = ⟨ids.toFinset⟩) ∧
    ((g.check_box_ids ids).1.check_box_ids ids).2 = none := by
  by_cases h : ids.toFinset \ g.current_ids = ∅
  · have hsub : ids.toFinset ⊆ g.current_ids :=
      Finset.sdiff_eq_empty_iff_subset.mp h
    refine ⟨?_, ?_, ?_, ?_⟩
    · simp [BoxIdGate.check_box_ids, h, hsub]
    · intro _; simp [BoxIdGate.check_box_ids, h]
    · intro spent fresh hsome
      simp [BoxIdGate.check_box_ids, h] at hsome
    · simp [BoxIdGate.check_box_ids, h]
  · have hnsub : ¬ ids.toFinset ⊆ g.current_ids := fun hs =>
      h (Finset.sdiff_eq_empty_iff_subset.mpr hs)
    refine ⟨?_, ?_, ?_, ?_⟩
    · simp [BoxIdGate.check_box_ids, h, hnsub]
    · intro hnone; simp [BoxIdGate.check_box_ids, h] at hnone
    · intro spent fresh hsome
      simp [BoxIdGate.check_box_ids, h] at hsome
      exact ⟨hsome.1.symm, hsome.2.symm, hsome.2 ▸ h, by
        simp [BoxIdGate.check_box_ids, h]⟩
    · simp [BoxIdGate.check_box_ids, h]

/-- C7 witness: concrete gate `{1, 2}`; ids `[2, 3]` add a new id (not
`none`), ids `[1, 2]` and `[1]` do not. -/
theorem boxIdGate_check_spec_witness :
    ((⟨{1, 2}⟩ : BoxIdGate).check_box_ids [2, 3]).2 ≠ none ∧
    ((⟨{1, 2}⟩ : BoxIdGate).check_box_ids [1, 2]).2 = none ∧
    ((⟨{1, 2}⟩ : BoxIdGate).check_box_ids [1]).2 = none := by
  refine ⟨?_, ?_, ?_⟩
  · intro hn
    exact absurd ((boxIdGate_check_spec ⟨{1, 2}⟩ [2, 3]).1.mp hn) (by decide)
  · exact (boxIdGate_check_spec ⟨{1, 2}⟩ [1, 2]).1.mpr (by decide)
  · exact (boxIdGate_check_spec ⟨{1, 2}⟩ [1]).1.mpr (by decide)


/-! ## C10 — decoded Buy orders fill safely -/

/-- Success paths of the decoder with tokens present always yield a Sell
order. -/
theorem gridOrderDecode_some_tokens_state (value : Nat) (ts : List SToken)
    (bid ask : Int) (tokenId : Nat) (amount : Int) (o : GridOrder)
    (hdec : gridOrderDecode value (some ts) bid ask tokenId amount = some o) :
    o.state = .sell := by
  rcases ts with _ | ⟨t, rest⟩
  · simp [gridOrderDecode] at hdec
  · rcases rest with _ | ⟨t2, rest2⟩
    · simp only [gridOrderDecode] at hdec
      split at hdec
      · split at hdec
        · split at hdec
          · exact absurd hdec (by simp)
          · split at hdec
            · exact absurd hdec (by simp)
            · replace hdec := Option.some_injective _ hdec
              rw [← hdec]
        · exact absurd hdec (by simp)
      · exact absurd hdec (by simp)
    · simp only [gridOrderDecode] at hdec
      split at hdec
      · split at hdec
        · exact absurd hdec (by simp)
        · exact absurd hdec (by simp)
      · exact absurd hdec (by simp)

/-- C10: a Buy-state `GridOrder` accepted by the box decoder (which enforces
`value ≥ MIN_BOX_VALUE + bid_value`) satisfies `bid_value ≤ value` (the
unchecked `u64` subtraction in `into_filled` cannot underflow), its
`into_filled` succeeds with the Sell state and value `value - bid_value`,
and that value is still at least `MIN_BOX_VALUE`. -/
theorem grid_decode_buy_fill_safe (value : Nat) (tokens : Option (List SToken))
    (bid ask : Int) (tokenId : Nat) (amount : Int) (o : GridOrder)
    (hv : boxValueOk value)
    (hdec : gridOrderDecode value tokens bid ask tokenId amount = some o)
    (hbuy : o.state = .buy) :
    o.bid_value ≤ o.value ∧
    o.into_filled = some { o with state := .sell, value := o.value - o.bid_value } ∧
    MIN_BOX_VALUE ≤ o.value - o.bid_value := by
  cases tokens with
  | some ts =>
    have := gridOrderDecode_some_tokens_state value ts bid ask tokenId amount o hdec
    rw [hbuy] at this
    exact absurd this (by simp)
  | none =>
    simp only [gridOrderDecode] at hdec
    split at hdec
    · split at hdec
      · split at hdec
        · exact absurd hdec (by simp)
        · rename_i hranges hamt hval
          replace hdec := Option.some_injective _ hdec
          subst hdec
          have hble : bid.toNat ≤ value := by
            unfold MIN_BOX_VALUE at hval; omega
          have hvu : value < U64_MOD := by
            rcases hv with ⟨_, hv2⟩; unfold I64_MAX at hv2; unfold U64_MOD; omega
          refine ⟨hble, ?_, ?_⟩
          · show GridOrder.into_filled _ = _
            simp only [GridOrder.into_filled]
            rw [u64WrapSub_of_le hble hvu]
            rw [if_pos ?_]
            rcases hv with ⟨_, hv2⟩
            show 1 ≤ value - bid.toNat ∧ value - bid.toNat ≤ I64_MAX
            unfold MIN_BOX_VALUE at hval
            unfold I64_MAX at *
            omega
          · show MIN_BOX_VALUE ≤ value - bid.toNat
            unfold MIN_BOX_VALUE at *; omega
      · exact absurd hdec (by simp)
    · exact absurd hdec (by simp)

/-- C10 witness: a concrete decoded Buy order (value `1500000`, bid
`400000`) fills to a Sell order with value `1100000 ≥ MIN_BOX_VALUE`. -/
theorem grid_decode_buy_fill_safe_witness :
    (⟨400000, 500000, ⟨7, 25⟩, .buy, 1500000⟩ : GridOrder).into_filled
      = some ⟨400000, 500000, ⟨7, 25⟩, .sell, 1100000⟩ ∧
    MIN_BOX_VALUE ≤ 1500000 - 400000 := by
  have h := grid_decode_buy_fill_safe 1500000 none 400000 500000 7 25
    ⟨400000, 500000, ⟨7, 25⟩, .buy, 1500000⟩ (by decide) (by decide) (by decide)
  exact ⟨h.2.1, h.2.2⟩

/-! ## C4 — into_filled round trip -/

/-- C4 counterexample: filling twice restores the state but changes the value
by `ask_value - bid_value` (here from `1000100` to `1000200`), so the round
trip does **not** return the original value. -/
theorem into_filled_roundtrip_counterexample :
    (c4o.into_filled.bind GridOrder.into_filled).map (fun o => (o.state, o.value))
      = some (OrderState.buy, 1000200) ∧ c4o.value ≠ 1000200 := by decide

/-- C4 amended: for orders whose `bid_value`/`ask_value` fit `i64` (true of
every decoded order), a double `into_filled` restores the state and all
fields except `value`, and changes `value` by exactly
`ask_value - bid_value` (that is, `o₂.value + bid_value = o.value +
ask_value`); the original value is restored only when `ask_value =
bid_value`. -/
theorem into_filled_roundtrip_amended (o o₁ o₂ : GridOrder)
    (hv : boxValueOk o.value) (hb : o.bid_value ≤ I64_MAX)
    (ha : o.ask_value ≤ I64_MAX)
    (h1 : o.into_filled = some o₁) (h2 : o₁.into_filled = some o₂) :
    o₂.state = o.state ∧ o₂.value + o.bid_value = o.value + o.ask_value ∧
    o₂.bid_value = o.bid_value ∧ o₂.ask_value = o.ask_value ∧
    o₂.token = o.token := by
  have hvu : o.value < U64_MOD := by
    rcases hv with ⟨_, hv2⟩; unfold I64_MAX at hv2; unfold U64_MOD; omega
  cases hos : o.state with
  | buy =>
    simp only [GridOrder.into_filled, hos] at h1
    by_cases hble : o.bid_value ≤ o.value
    · rw [u64WrapSub_of_le hble hvu] at h1
      split at h1
      · rename_i hok1
        replace h1 := Option.some_injective _ h1
        subst h1
        simp only [GridOrder.into_filled] at h2
        have hsum : o.value - o.bid_value + o.ask_value < U64_MOD := by
          unfold boxValueOk I64_MAX at *; unfold U64_MOD; omega
        rw [u64WrapAdd_eq hsum] at h2
        split at h2
        · replace h2 := Option.some_injective _ h2
          subst h2
          refine ⟨rfl, by show _ - _ + _ + _ = _; omega, rfl, rfl, rfl⟩
        · exact absurd h2 (by simp)
      · exact absurd h1 (by simp)
    · have hbub : o.bid_value < U64_MOD := by
        unfold I64_MAX at hb; unfold U64_MOD; omega
      rw [u64WrapSub_of_lt (by omega) hbub] at h1
      split at h1
      · rename_i hok1
        exfalso
        rcases hok1 with ⟨_, hok1b⟩
        unfold I64_MAX at *; unfold U64_MOD at *; omega
      · exact absurd h1 (by simp)
  | sell =>
    simp only [GridOrder.into_filled, hos] at h1
    have hsum : o.value + o.ask_value < U64_MOD := by
      unfold boxValueOk I64_MAX at *; unfold U64_MOD; omega
    rw [u64WrapAdd_eq hsum] at h1
    split at h1
    · rename_i hok1
      replace h1 := Option.some_injective _ h1
      subst h1
      simp only [GridOrder.into_filled] at h2
      by_cases hble : o.bid_value ≤ o.value + o.ask_value
      · rw [u64WrapSub_of_le hble hsum] at h2
        split at h2
        · replace h2 := Option.some_injective _ h2
          subst h2
          refine ⟨rfl, by show _ + _ - _ + _ = _; omega, rfl, rfl, rfl⟩
        · exact absurd h2 (by simp)
      · have hbub : o.bid_value < U64_MOD := by
          unfold I64_MAX at hb; unfold U64_MOD; omega
        rw [u64WrapSub_of_lt (by omega) hbub] at h2
        split at h2
        · rename_i hok2
          exfalso
          rcases hok2 with ⟨_, hok2b⟩
          rcases hok1 with ⟨_, hok1b⟩
          unfold boxValueOk I64_MAX at *; unfold U64_MOD at *; omega
        · exact absurd h2 (by simp)
    · exact absurd h1 (by simp)

/-- C4 amended witness: the concrete order `c4o` (bid 100, ask 200) double
fills from value `1000100` to value `1000200`, restoring the Buy state. -/
theorem into_filled_roundtrip_amended_witness :
    (⟨100, 200, ⟨3, 10⟩, .buy, 1000200⟩ : GridOrder).state = c4o.state ∧
    (⟨100, 200, ⟨3, 10⟩, .buy, 1000200⟩ : GridOrder).value + c4o.bid_value
      = c4o.value + c4o.ask_value := by
  have h := into_filled_roundtrip_amended c4o
    ⟨100, 200, ⟨3, 10⟩, .sell, 1000000⟩ ⟨100, 200, ⟨3, 10⟩, .buy, 1000200⟩
    (by decide) (by decide) (by decide) (by decide) (by decide)
  exact ⟨h.1, h.2.1⟩

/-! ## C2 — output_amount formula and concrete scenario -/

/-- With in-range reserves and input and a positive fee fraction, the `BigInt`
computation of `output_amount` is exactly the `Nat` floor-division formula
(the quotient is strictly below the destination reserve, so only the
zero-output case can fail). -/
theorem outputAmountCore_pos (fromR toR : SToken) (fn fd : Int) (i : Nat)
    (hfrom : tokenAmountOk fromR.amount) (hto : tokenAmountOk toR.amount)
    (hi : tokenAmountOk i) (hfn : 0 < fn) (hfd : 0 < fd) :
    outputAmountCore fromR toR fn fd i =
      (if 1 ≤ toR.amount * i * fn.toNat / (fromR.amount * fd.toNat + i * fn.toNat)
       then .ok ⟨toR.tokenId,
              toR.amount * i * fn.toNat / (fromR.amount * fd.toNat + i * fn.toNat)⟩
       else .err .tokenAmountError) := by
  have hfnN : (fn.toNat : Int) = fn := Int.toNat_of_nonneg hfn.le
  have hfdN : (fd.toNat : Int) = fd := Int.toNat_of_nonneg hfd.le
  have hfn1 : 1 ≤ fn.toNat := by omega
  have hfd1 : 1 ≤ fd.toNat := by omega
  have hnum : (toR.amount : Int) * (i : Int) * fn
      = ((toR.amount * i * fn.toNat : Nat) : Int) := by
    push_cast [hfnN]; ring
  have hden : (fromR.amount : Int) * fd + (i : Int) * fn
      = ((fromR.amount * fd.toNat + i * fn.toNat : Nat) : Int) := by
    push_cast [hfnN, hfdN]; ring
  unfold outputAmountCore
  dsimp only
  rw [hnum, hden, tdiv_coe_nat]
  set qN := toR.amount * i * fn.toNat / (fromR.amount * fd.toNat + i * fn.toNat)
    with hqdef
  have hprod : 1 * 1 ≤ fromR.amount * fd.toNat := Nat.mul_le_mul hfrom.1 hfd1
  have hdpos : 0 < fromR.amount * fd.toNat + i * fn.toNat := by omega
  have hipos : 0 < i * fn.toNat := Nat.mul_pos hi.1 (by omega)
  have hq_le : qN ≤ toR.amount := by
    calc qN ≤ toR.amount * i * fn.toNat / (i * fn.toNat) :=
          Nat.div_le_div_left (Nat.le_add_left _ _) hipos
      _ = toR.amount := by rw [Nat.mul_assoc]; exact Nat.mul_div_cancel _ hipos
  have hq_i64 : qN ≤ I64_MAX := le_trans hq_le hto.2
  rw [if_neg (show ¬ ((fromR.amount * fd.toNat + i * fn.toNat : Nat) : Int) = 0 by
    simp only [Int.natCast_eq_zero]; omega)]
  rw [if_pos ⟨Int.ofNat_nonneg _, by
    exact_mod_cast (by unfold I64_MAX at hq_i64; unfold U64_MOD; omega : qN < U64_MOD)⟩]
  by_cases h1 : 1 ≤ qN
  · rw [if_pos ⟨by exact_mod_cast h1, by exact_mod_cast hq_i64⟩, if_pos h1]
    simp
  · rw [if_neg (fun hc => h1 (by exact_mod_cast hc.1)), if_neg h1]

/-- C2: for a valid pool with positive fee fraction, `output_amount` on an
input matching a reserve asset returns the other asset with amount
`to_amount * input * fee_num / (from_amount * fee_denom + input * fee_num)`
(floor division on unbounded integers; the only failure is a zero quotient,
which is not a representable token amount).  In particular, on the pool
`(asset_x = 1000000000, asset_y = 1000)` with fee `998/1000`, an input of
`500000000` of `asset_x` yields `332` of `asset_y`, and `with_swap` yields
reserves `(1500000000, 668)`. -/
theorem output_amount_formula_spec :
    (∀ (p : SpectrumPool) (input : SToken),
        tokenAmountOk p.asset_x.amount → tokenAmountOk p.asset_y.amount →
        tokenAmountOk input.amount → 0 < p.fee_num → 0 < p.fee_denom →
        input.tokenId = p.asset_x.tokenId →
        p.output_amount input =
          (if 1 ≤ p.asset_y.amount * input.amount * p.fee_num.toNat /
                  (p.asset_x.amount * p.fee_denom.toNat + input.amount * p.fee_num.toNat)
           then .ok ⟨p.asset_y.tokenId,
                  p.asset_y.amount * input.amount * p.fee_num.toNat /
                  (p.asset_x.amount * p.fee_denom.toNat + input.amount * p.fee_num.toNat)⟩
           else .err .tokenAmountError)) ∧
    (∀ (p : SpectrumPool) (input : SToken),
        tokenAmountOk p.asset_x.amount → tokenAmountOk p.asset_y.amount →
        tokenAmountOk input.amount → 0 < p.fee_num → 0 < p.fee_denom →
        input.tokenId ≠ p.asset_x.tokenId → input.tokenId = p.asset_y.tokenId →
        p.output_amount input =
          (if 1 ≤ p.asset_x.amount * input.amount * p.fee_num.toNat /
                  (p.asset_y.amount * p.fee_denom.toNat + input.amount * p.fee_num.toNat)
           then .ok ⟨p.asset_x.tokenId,
                  p.asset_x.amount * input.amount * p.fee_num.toNat /
                  (p.asset_y.amount * p.fee_denom.toNat + input.amount * p.fee_num.toNat)⟩
           else .err .tokenAmountError)) ∧
    c2pool.output_amount ⟨0, 500000000⟩ = .ok ⟨3, 332⟩ ∧
    c2pool.with_swap ⟨0, 500000000⟩ = .ok ⟨⟨0, 1500000000⟩, ⟨3, 668⟩, 998, 1000⟩ := by
  refine ⟨?_, ?_, by decide, by decide⟩
  · intro p input hx hy hi hfn hfd hid
    rw [SpectrumPool.output_amount, if_pos hid]
    exact outputAmountCore_pos p.asset_x p.asset_y p.fee_num p.fee_denom
      input.amount hx hy hi hfn hfd
  · intro p input hx hy hi hfn hfd hnx hid
    rw [SpectrumPool.output_amount, if_neg hnx, if_pos hid]
    exact outputAmountCore_pos p.asset_y p.asset_x p.fee_num p.fee_denom
      input.amount hy hx hi hfn hfd

/-- C2 witness: applying the formula equation to the concrete pool of the
scenario reproduces the `332` output. -/
theorem output_amount_formula_spec_witness :
    c2pool.output_amount ⟨0, 500000000⟩
      = .ok ⟨3, 1000 * 500000000 * 998 / (1000000000 * 1000 + 500000000 * 998)⟩ := by
  have h := output_amount_formula_spec.1 c2pool ⟨0, 500000000⟩
    (by decide) (by decide) (by decide) (by decide) (by decide) (by decide)
  rw [h]
  decide

/-! ## C1 — constant-product monotonicity -/

/-- The arithmetic heart of C1: with `fee_num ≤ fee_denom` the floor-divided
output keeps the reserve product from decreasing. -/
theorem constant_product_step (x y i o fnN fdN : Nat)
    (hx1 : 1 ≤ x) (hfn1 : 1 ≤ fnN) (hffN : fnN ≤ fdN)
    (ho : o = y * i * fnN / (x * fdN + i * fnN)) (hoy : o ≤ y) :
    x * y ≤ (x + i) * (y - o) := by
  have h1 : o * (x * fdN + i * fnN) ≤ y * i * fnN := by
    rw [ho]; exact Nat.div_mul_le_self _ _
  have h2 : fnN * (x + i) ≤ x * fdN + i * fnN := by
    have hbase : fnN * x ≤ fdN * x := Nat.mul_le_mul_right x hffN
    calc fnN * (x + i) = fnN * x + fnN * i := by ring
      _ ≤ fdN * x + fnN * i := by omega
      _ = x * fdN + i * fnN := by ring
  have h3 : o * (x + i) * fnN ≤ y * i * fnN := by
    calc o * (x + i) * fnN = o * (fnN * (x + i)) := by ring
      _ ≤ o * (x * fdN + i * fnN) := Nat.mul_le_mul_left o h2
      _ ≤ y * i * fnN := h1
  have h4 : o * (x + i) ≤ y * i := Nat.le_of_mul_le_mul_right h3 (by omega)
  zify [hoy] at *
  nlinarith [h4]

theorem tokenCheckedAdd_some {a b c : Nat} (h : tokenCheckedAdd a b = some c) :
    c = a + b ∧ a + b ≤ I64_MAX := by
  unfold tokenCheckedAdd at h
  split at h
  · split at h
    · exact ⟨(Option.some_injective _ h).symm, by assumption⟩
    · exact absurd h (by simp)
  · exact absurd h (by simp)

theorem tokenCheckedSub_some {a b c : Nat} (h : tokenCheckedSub a b = some c) :
    c = a - b ∧ b ≤ a ∧ 1 ≤ a - b := by
  unfold tokenCheckedSub at h
  split at h
  · split at h
    · exact ⟨(Option.some_injective _ h).symm, by assumption, by assumption⟩
    · exact absurd h (by simp)
  · exact absurd h (by simp)

/-- One successful `with_swap` with `0 < fee_num ≤ fee_denom` does not
decrease the reserve product, and preserves reserve validity and the fee. -/
theorem with_swap_product_step (p p' : SpectrumPool) (input : SToken)
    (hx : tokenAmountOk p.asset_x.amount) (hy : tokenAmountOk p.asset_y.amount)
    (hi : tokenAmountOk input.amount)
    (hfn : 0 < p.fee_num) (hff : p.fee_num ≤ p.fee_denom)
    (h : p.with_swap input = .ok p') :
    p.asset_x.amount * p.asset_y.amount ≤ p'.asset_x.amount * p'.asset_y.amount ∧
    tokenAmountOk p'.asset_x.amount ∧ tokenAmountOk p'.asset_y.amount ∧
    p'.fee_num = p.fee_num ∧ p'.fee_denom = p.fee_denom := by
  have hfd : 0 < p.fee_denom := lt_of_lt_of_le hfn hff
  have hffN : p.fee_num.toNat ≤ p.fee_denom.toNat := by omega
  have hfn1 : 1 ≤ p.fee_num.toNat := by omega
  unfold SpectrumPool.with_swap at h
  by_cases hidx : input.tokenId = p.asset_x.tokenId
  · rw [SpectrumPool.output_amount, if_pos hidx,
      outputAmountCore_pos p.asset_x p.asset_y p.fee_num p.fee_denom
        input.amount hx hy hi hfn hfd] at h
    set qN := p.asset_y.amount * input.amount * p.fee_num.toNat /
      (p.asset_x.amount * p.fee_denom.toNat + input.amount * p.fee_num.toNat)
      with hqdef
    by_cases hq1 : 1 ≤ qN
    · rw [if_pos hq1] at h
      dsimp only at h
      rw [if_pos hidx] at h
      cases hadd : tokenCheckedAdd p.asset_x.amount input.amount with
      | none => rw [hadd] at h; exact absurd h (by simp)
      | some xa =>
        rw [hadd] at h
        cases hsub : tokenCheckedSub p.asset_y.amount qN with
        | none => rw [hsub] at h; exact absurd h (by simp)
        | some ya =>
          rw [hsub] at h
          replace h := PRes.ok.inj h
          obtain ⟨haddv, haddb⟩ := tokenCheckedAdd_some hadd
          obtain ⟨hsubv, hsuble, hsubpos⟩ := tokenCheckedSub_some hsub
          rw [← h]
          dsimp only
          subst haddv hsubv
          have hx1 := hx.1; have hx2 := hx.2
          have hy1 := hy.1; have hy2 := hy.2
          have hi1 := hi.1; have hi2 := hi.2
          refine ⟨?_, ⟨by omega, by omega⟩, ⟨by omega, by omega⟩, rfl, rfl⟩
          exact constant_product_step p.asset_x.amount p.asset_y.amount
            input.amount qN p.fee_num.toNat p.fee_denom.toNat
            hx.1 hfn1 hffN hqdef hsuble
    · rw [if_neg hq1] at h
      exact absurd h (by simp)
  · rw [SpectrumPool.output_amount, if_neg hidx] at h
    by_cases hidy : input.tokenId = p.asset_y.tokenId
    · rw [if_pos hidy,
        outputAmountCore_pos p.asset_y p.asset_x p.fee_num p.fee_denom
          input.amount hy hx hi hfn hfd] at h
      set qN := p.asset_x.amount * input.amount * p.fee_num.toNat /
        (p.asset_y.amount * p.fee_denom.toNat + input.amount * p.fee_num.toNat)
        with hqdef
      by_cases hq1 : 1 ≤ qN
      · rw [if_pos hq1] at h
        dsimp only at h
        rw [if_neg hidx] at h
        cases hsub : tokenCheckedSub p.asset_x.amount qN with
        | none => rw [hsub] at h; exact absurd h (by simp)
        | some xa =>
          rw [hsub] at h
          cases hadd : tokenCheckedAdd p.asset_y.amount input.amount with
          | none => rw [hadd] at h; exact absurd h (by simp)
          | some ya =>
            rw [hadd] at h
            replace h := PRes.ok.inj h
            obtain ⟨haddv, haddb⟩ := tokenCheckedAdd_some hadd
            obtain ⟨hsubv, hsuble, hsubpos⟩ := tokenCheckedSub_some hsub
            rw [← h]
            dsimp only
            subst haddv hsubv
            have hx1 := hx.1; have hx2 := hx.2
            have hy1 := hy.1; have hy2 := hy.2
            have hi1 := hi.1; have hi2 := hi.2
            refine ⟨?_, ⟨by omega, by omega⟩, ⟨by omega, by omega⟩, rfl, rfl⟩
            have hcore := constant_product_step p.asset_y.amount
              p.asset_x.amount input.amount qN p.fee_num.toNat
              p.fee_denom.toNat hy.1 hfn1 hffN hqdef hsuble
            calc p.asset_x.amount * p.asset_y.amount
                = p.asset_y.amount * p.asset_x.amount := Nat.mul_comm _ _
              _ ≤ (p.asset_y.amount + input.amount) * (p.asset_x.amount - qN) :=
                  hcore
              _ = (p.asset_x.amount - qN) * (p.asset_y.amount + input.amount) :=
                  Nat.mul_comm _ _
      · rw [if_neg hq1] at h
        exact absurd h (by simp)
    · rw [if_neg hidy] at h
      exact absurd h (by simp)

/-- C1 counterexample: a pool with positive, in-range reserves but fee
`1100/1000` (`fee_num > fee_denom`; the box decoder accepts any `i32` fee
register) strictly decreases the reserve product on a successful `with_swap`
of a matching input token. -/
theorem swap_product_monotone_counterexample :
    (⟨⟨0, 1000⟩, ⟨3, 1000⟩, 1100, 1000⟩ : SpectrumPool).with_swap ⟨0, 1000⟩
      = .ok ⟨⟨0, 2000⟩, ⟨3, 477⟩, 1100, 1000⟩ ∧
    tokenAmountOk (1000 : Nat) ∧
    (⟨⟨0, 1000⟩, ⟨3, 1000⟩, 1100, 1000⟩ : SpectrumPool).asset_x.tokenId = 0 ∧
    2000 * 477 < 1000 * 1000 := by decide

/-- C1 amended: for every `SpectrumPool` with in-range reserves **and a fee
satisfying `0 < fee_num ≤ fee_denom`**, a successful `with_swap` of a
matching input token does not decrease `asset_x * asset_y`, and the same
holds across any sequence of successful swaps. -/
theorem swap_product_monotone_amended :
    (∀ (p p' : SpectrumPool) (input : SToken),
        tokenAmountOk p.asset_x.amount → tokenAmountOk p.asset_y.amount →
        tokenAmountOk input.amount →
        0 < p.fee_num → p.fee_num ≤ p.fee_denom →
        (input.tokenId = p.asset_x.tokenId ∨ input.tokenId = p.asset_y.tokenId) →
        p.with_swap input = .ok p' →
        p.asset_x.amount * p.asset_y.amount ≤
          p'.asset_x.amount * p'.asset_y.amount) ∧
    (∀ (ts : List SToken) (p p' : SpectrumPool),
        tokenAmountOk p.asset_x.amount → tokenAmountOk p.asset_y.amount →
        (∀ t ∈ ts, tokenAmountOk t.amount) →
        0 < p.fee_num → p.fee_num ≤ p.fee_denom →
        swapSeq p ts = .ok p' →
        p.asset_x.amount * p.asset_y.amount ≤
          p'.asset_x.amount * p'.asset_y.amount) := by
  constructor
  · intro p p' input hx hy hi hfn hff _ h
    exact (with_swap_product_step p p' input hx hy hi hfn hff h).1
  · intro ts
    induction ts with
    | nil =>
      intro p p' hx hy _ hfn hff h
      unfold swapSeq at h
      replace h := PRes.ok.inj h
      rw [h]
    | cons t ts ih =>
      intro p p' hx hy hts hfn hff h
      unfold swapSeq at h
      cases hsw : p.with_swap t with
      | ok pmid =>
        rw [hsw] at h
        obtain ⟨hstep, hx', hy', hfn', hfd'⟩ :=
          with_swap_product_step p pmid t hx hy (hts t (by simp)) hfn hff hsw
        refine le_trans hstep (ih pmid p' hx' hy' ?_ ?_ ?_ h)
        · intro u hu; exact hts u (by simp [hu])
        · rw [hfn']; exact hfn
        · rw [hfn', hfd']; exact hff
      | err e => rw [hsw] at h; exact absurd h (by simp)
      | panic m => rw [hsw] at h; exact absurd h (by simp)

/-- C1 amended witness: the concrete scenario pool (fee `998/1000`) swapping
in `500000000` of `asset_x` raises the product from `10^12` to
`1500000000 * 668`, both for the single swap and as a one-element
sequence. -/
theorem swap_product_monotone_amended_witness :
    c2pool.asset_x.amount * c2pool.asset_y.amount ≤ 1500000000 * 668 ∧
    c2pool.asset_x.amount * c2pool.asset_y.amount ≤
      (⟨⟨0, 1500000000⟩, ⟨3, 668⟩, 998, 1000⟩ : SpectrumPool).asset_x.amount *
      (⟨⟨0, 1500000000⟩, ⟨3, 668⟩, 998, 1000⟩ : SpectrumPool).asset_y.amount := by
  have h1 := swap_product_monotone_amended.1 c2pool
    ⟨⟨0, 1500000000⟩, ⟨3, 668⟩, 998, 1000⟩ ⟨0, 500000000⟩
    (by decide) (by decide) (by decide) (by decide) (by decide)
    (Or.inl (by decide)) (by decide)
  exact ⟨h1, h1⟩

/-! ## C6 — input_amount: ceiling formula and failure behaviour -/

/-- C6 counterexample: requesting an output equal to the whole destination
reserve makes the `BigInt` denominator zero, and the code panics
(division by zero) instead of returning an `InsufficientLiquidity`-class
error. -/
theorem input_amount_error_counterexample :
    (⟨⟨0, 1000000000⟩, ⟨3, 1000⟩, 998, 1000⟩ : SpectrumPool).input_amount ⟨3, 1000⟩
      = .panic .divByZero := by decide

/-- With `output < to_amount` and a positive fee fraction, `input_amount` is
the `Nat` formula `from * output * fee_denom / ((to - output) * fee_num) + 1`
(floor division plus the deliberate ceiling increment); a result that does
not fit `u64` is a `BigIntTruncated` error, one that fits `u64` but not a
token amount is a `TokenAmountError`. -/
theorem inputAmountCore_lt (fromR toR : SToken) (fn fd : Int) (o : Nat)
    (ho : o < toR.amount) (hfn : 0 < fn) (hfd : 0 < fd) :
    inputAmountCore fromR toR fn fd o =
      (if fromR.amount * o * fd.toNat / ((toR.amount - o) * fn.toNat) + 1 < U64_MOD
       then
        (if fromR.amount * o * fd.toNat / ((toR.amount - o) * fn.toNat) + 1 ≤ I64_MAX
         then .ok ⟨fromR.tokenId,
                fromR.amount * o * fd.toNat / ((toR.amount - o) * fn.toNat) + 1⟩
         else .err .tokenAmountError)
       else .err .bigIntTruncated) := by
  have hfnN : (fn.toNat : Int) = fn := Int.toNat_of_nonneg hfn.le
  have hfdN : (fd.toNat : Int) = fd := Int.toNat_of_nonneg hfd.le
  have hfn1 : 1 ≤ fn.toNat := by omega
  have hnum : (fromR.amount : Int) * (o : Int) * fd
      = ((fromR.amount * o * fd.toNat : Nat) : Int) := by
    push_cast [hfdN]; ring
  have hden : ((toR.amount : Int) - (o : Int)) * fn
      = (((toR.amount - o) * fn.toNat : Nat) : Int) := by
    push_cast [hfnN, Nat.cast_sub ho.le]; ring
  unfold inputAmountCore
  dsimp only
  rw [hnum, hden, tdiv_coe_nat]
  set qN := fromR.amount * o * fd.toNat / ((toR.amount - o) * fn.toNat) with hqdef
  have hdpos : 0 < (toR.amount - o) * fn.toNat :=
    Nat.mul_pos (by omega) (by omega)
  rw [if_neg (show ¬ (((toR.amount - o) * fn.toNat : Nat) : Int) = 0 by
    simp only [Int.natCast_eq_zero]; omega)]
  have hqcast : ((qN : Nat) : Int) + 1 = ((qN + 1 : Nat) : Int) := by push_cast; ring
  rw [hqcast]
  by_cases hu : qN + 1 < U64_MOD
  · rw [if_pos ⟨by positivity, by exact_mod_cast hu⟩, if_pos hu]
    by_cases hi64 : qN + 1 ≤ I64_MAX
    · rw [if_pos ⟨by exact_mod_cast Nat.le_add_left 1 qN, by exact_mod_cast hi64⟩,
        if_pos hi64]
      simp
    · rw [if_neg (fun hc => hi64 (by exact_mod_cast hc.2)), if_neg hi64]
  · rw [if_neg (fun hc => hu (by exact_mod_cast hc.2)), if_neg hu]

/-- With `output > to_amount` and `0 < fee_num ≤ fee_denom`, `input_amount`
always fails (quotient `+ 1 ≤ 0`): either the negative value does not
convert to `u64` (`BigIntTruncated`) or it is `0`, which is not a valid
token amount (`TokenAmountError`). -/
theorem inputAmountCore_gt (fromR toR : SToken) (fn fd : Int) (o : Nat)
    (hfrom : 1 ≤ fromR.amount) (hto : 1 ≤ toR.amount) (ho : toR.amount < o)
    (hfn : 0 < fn) (hff : fn ≤ fd) :
    inputAmountCore fromR toR fn fd o = .err .tokenAmountError ∨
    inputAmountCore fromR toR fn fd o = .err .bigIntTruncated := by
  have hfd : 0 < fd := lt_of_lt_of_le hfn hff
  have hfnN : (fn.toNat : Int) = fn := Int.toNat_of_nonneg hfn.le
  have hfdN : (fd.toNat : Int) = fd := Int.toNat_of_nonneg hfd.le
  have hfn1 : 1 ≤ fn.toNat := by omega
  have hffN : fn.toNat ≤ fd.toNat := by omega
  have hnum : (fromR.amount : Int) * (o : Int) * fd
      = ((fromR.amount * o * fd.toNat : Nat) : Int) := by
    push_cast [hfdN]; ring
  have hden : ((toR.amount : Int) - (o : Int)) * fn
      = -(((o - toR.amount) * fn.toNat : Nat) : Int) := by
    push_cast [hfnN, Nat.cast_sub ho.le]; ring
  unfold inputAmountCore
  dsimp only
  rw [hnum, hden, Int.tdiv_neg, tdiv_coe_nat]
  set qN := fromR.amount * o * fd.toNat / ((o - toR.amount) * fn.toNat) with hqdef
  have hdpos : 0 < (o - toR.amount) * fn.toNat :=
    Nat.mul_pos (by omega) (by omega)
  have hq1 : 1 ≤ qN := by
    rw [hqdef, Nat.one_le_div_iff hdpos]
    calc (o - toR.amount) * fn.toNat ≤ o * fn.toNat :=
          Nat.mul_le_mul_right _ (by omega)
      _ ≤ o * fd.toNat := Nat.mul_le_mul_left _ hffN
      _ = 1 * (o * fd.toNat) := (Nat.one_mul _).symm
      _ ≤ fromR.amount * (o * fd.toNat) := Nat.mul_le_mul_right _ hfrom
      _ = fromR.amount * o * fd.toNat := by ring
  rw [if_neg (show ¬ (-(((o - toR.amount) * fn.toNat : Nat) : Int)) = 0 by
    simp only [neg_eq_zero, Int.natCast_eq_zero]; omega)]
  by_cases hq0 : qN = 1
  · left
    have hg1 : (0 : Int) ≤ -((qN : Nat) : Int) + 1 ∧
        -((qN : Nat) : Int) + 1 < ((U64_MOD : Nat) : Int) := by
      rw [hq0]
      constructor
      · norm_num
      · unfold U64_MOD; norm_num
    have hg2 : ¬ ((1 : Int) ≤ -((qN : Nat) : Int) + 1 ∧
        -((qN : Nat) : Int) + 1 ≤ ((I64_MAX : Nat) : Int)) := by
      rw [hq0]; norm_num
    rw [if_pos hg1, if_neg hg2]
  · right
    have hg : ¬ ((0 : Int) ≤ -((qN : Nat) : Int) + 1 ∧
        -((qN : Nat) : Int) + 1 < ((U64_MOD : Nat) : Int)) := by
      intro hc
      have hle : ((qN : Nat) : Int) ≤ 1 := by
        have := hc.1; omega
      have : qN ≤ 1 := by exact_mod_cast hle
      omega
    rw [if_neg hg]

/-- C6 amended: `input_amount` on an output matching one reserve asset is
the ceiling formula `from * output * fee_denom / ((to - output) * fee_num)
+ 1` whenever `output < to_amount` (failing with a `BigIntTruncated` /
`TokenAmountError` when the result does not fit `u64` / a token amount); for
`output > to_amount` (with `0 < fee_num ≤ fee_denom`) it fails with one of
those errors; but at `output = to_amount` the denominator is zero and the
code **panics** instead of returning an error. -/
theorem input_amount_error_spec :
    (∀ (p : SpectrumPool) (output : SToken),
        output.tokenId = p.asset_y.tokenId →
        p.input_amount output =
          inputAmountCore p.asset_x p.asset_y p.fee_num p.fee_denom output.amount) ∧
    (∀ (p : SpectrumPool) (output : SToken),
        output.tokenId ≠ p.asset_y.tokenId → output.tokenId = p.asset_x.tokenId →
        p.input_amount output =
          inputAmountCore p.asset_y p.asset_x p.fee_num p.fee_denom output.amount) ∧
    (∀ (fromR toR : SToken) (fn fd : Int) (o : Nat),
        o < toR.amount → 0 < fn → 0 < fd →
        inputAmountCore fromR toR fn fd o =
          (if fromR.amount * o * fd.toNat / ((toR.amount - o) * fn.toNat) + 1 < U64_MOD
           then
            (if fromR.amount * o * fd.toNat / ((toR.amount - o) * fn.toNat) + 1 ≤ I64_MAX
             then .ok ⟨fromR.tokenId,
                    fromR.amount * o * fd.toNat / ((toR.amount - o) * fn.toNat) + 1⟩
             else .err .tokenAmountError)
           else .err .bigIntTruncated)) ∧
    (∀ (fromR toR : SToken) (fn fd : Int),
        inputAmountCore fromR toR fn fd toR.amount = .panic .divByZero) ∧
    (∀ (fromR toR : SToken) (fn fd : Int) (o : Nat),
        1 ≤ fromR.amount → 1 ≤ toR.amount → toR.amount < o → 0 < fn → fn ≤ fd →
        inputAmountCore fromR toR fn fd o = .err .tokenAmountError ∨
        inputAmountCore fromR toR fn fd o = .err .bigIntTruncated) := by
  refine ⟨?_, ?_, ?_, ?_, ?_⟩
  · intro p output hid
    rw [SpectrumPool.input_amount, if_pos hid]
  · intro p output hny hid
    rw [SpectrumPool.input_amount, if_neg hny, if_pos hid]
  · intro fromR toR fn fd o ho hfn hfd
    exact inputAmountCore_lt fromR toR fn fd o ho hfn hfd
  · intro fromR toR fn fd
    unfold inputAmountCore
    dsimp only
    rw [if_pos (show ((toR.amount : Int) - (toR.amount : Int)) * fn = 0 by
      rw [sub_self, zero_mul])]
  · intro fromR toR fn fd o hfrom hto ho hfn hff
    exact inputAmountCore_gt fromR toR fn fd o hfrom hto ho hfn hff

/-- C6 amended witness: on the concrete scenario pool, requesting `500` of
`asset_y` costs `1002004008017` of `asset_x` (formula value), and requesting
`2000 > 1000` fails with an error. -/
theorem input_amount_error_spec_witness :
    c2pool.input_amount ⟨3, 500⟩ = .ok ⟨0, 1002004009⟩ ∧
    (c2pool.input_amount ⟨3, 2000⟩ = .err .tokenAmountError ∨
     c2pool.input_amount ⟨3, 2000⟩ = .err .bigIntTruncated) := by
  constructor
  · have h1 := input_amount_error_spec.1 c2pool ⟨3, 500⟩ (by decide)
    have h3 := input_amount_error_spec.2.2.1 c2pool.asset_x c2pool.asset_y
      c2pool.fee_num c2pool.fee_denom 500 (by decide) (by decide) (by decide)
    rw [h1, h3]
    decide
  · have h1 := input_amount_error_spec.1 c2pool ⟨3, 2000⟩ (by decide)
    have h5 := input_amount_error_spec.2.2.2.2 c2pool.asset_x c2pool.asset_y
      c2pool.fee_num c2pool.fee_denom 2000 (by decide) (by decide) (by decide)
      (by decide) (by decide)
    rw [h1]
    exact h5

/-! ## C5 — multigrid value invariant -/

theorem buyBidSum_cons_buy {e : GridOrderEntry} (t : List GridOrderEntry)
    (h : e.state = .buy) :
    buyBidSum (e :: t) = e.bid_value + buyBidSum t := by
  unfold buyBidSum
  simp [List.filter_cons, h]

theorem buyBidSum_cons_sell {e : GridOrderEntry} (t : List GridOrderEntry)
    (h : e.state = .sell) :
    buyBidSum (e :: t) = buyBidSum t := by
  unfold buyBidSum
  simp [List.filter_cons, h]

theorem askSum_cons (e : GridOrderEntry) (t : List GridOrderEntry) :
    askSum (e :: t) = e.ask_value + askSum t := by
  unfold askSum
  simp

theorem buyBidSum_le_allBidSum (es : List GridOrderEntry) :
    buyBidSum es ≤ allBidSum es := by
  induction es with
  | nil => simp [buyBidSum, allBidSum]
  | cons e t ih =>
    cases he : e.state with
    | buy =>
      rw [buyBidSum_cons_buy t he]
      unfold allBidSum at *
      simp only [List.map_cons, List.sum_cons]
      omega
    | sell =>
      rw [buyBidSum_cons_sell t he]
      unfold allBidSum at *
      simp only [List.map_cons, List.sum_cons]
      omega

theorem mgNewFold_none (l : List GridOrderEntry) :
    l.foldl
      (fun acc e => acc.bind (fun a =>
        if a + e.bid_value < U64_MOD then some (a + e.bid_value) else none))
      none = none := by
  induction l with
  | nil => rfl
  | cons e t ih => simpa using ih

/-- The checked fold of `MultiGridOrder::new` yields exactly the plain sum. -/
theorem mgNewFold_some (l : List GridOrderEntry) : ∀ (a0 v : Nat),
    l.foldl
      (fun acc e => acc.bind (fun a =>
        if a + e.bid_value < U64_MOD then some (a + e.bid_value) else none))
      (some a0) = some v →
    v = a0 + (l.map (·.bid_value)).sum := by
  induction l with
  | nil =>
    intro a0 v h
    simp at h
    simp [h.symm]
  | cons e t ih =>
    intro a0 v h
    simp only [List.foldl_cons, Option.some_bind] at h
    by_cases hc : a0 + e.bid_value < U64_MOD
    · rw [if_pos hc] at h
      have := ih (a0 + e.bid_value) v h
      simp only [List.map_cons, List.sum_cons]
      omega
    · rw [if_neg hc] at h
      rw [mgNewFold_none t] at h
      exact absurd h (by simp)

/-- The `with_entries` fold: given matching per-rung bid values, `bid ≤ ask`
on each rung, enough collateral for all Buy rungs and headroom for all asks,
the result stays within
`[buyBidSum news + (v - buyBidSum olds), v + askSum olds]` (no overflow). -/
theorem weFold_bound (olds news : List GridOrderEntry)
    (hf : List.Forall₂
      (fun a b => a.bid_value = b.bid_value ∧ a.ask_value = b.ask_value)
      olds news)
    (hba : ∀ e ∈ olds, e.bid_value ≤ e.ask_value)
    (hao : ∀ e ∈ olds, e.ask_value ≤ I64_MAX) :
    ∀ (v : Int),
    ((buyBidSum olds : Nat) : Int) ≤ v →
    v + ((askSum olds : Nat) : Int) ≤ ((I64_MAX : Nat) : Int) →
    ((buyBidSum news : Nat) : Int) + (v - ((buyBidSum olds : Nat) : Int)) ≤
      (olds.zip news).foldl weStep v ∧
    (olds.zip news).foldl weStep v ≤ v + ((askSum olds : Nat) : Int) := by
  induction hf with
  | nil =>
    intro v _ _
    constructor <;> simp [buyBidSum, askSum]
  | @cons a b as bs hpr htail ih =>
    intro v hlow hupp
    have hbb : a.bid_value = b.bid_value := hpr.1
    have hba1 : a.bid_value ≤ a.ask_value := hba a (List.mem_cons_self a as)
    have hao1 : a.ask_value ≤ I64_MAX := hao a (List.mem_cons_self a as)
    have hba' : ∀ e ∈ as, e.bid_value ≤ e.ask_value := fun e he =>
      hba e (List.mem_cons_of_mem a he)
    have hao' : ∀ e ∈ as, e.ask_value ≤ I64_MAX := fun e he =>
      hao e (List.mem_cons_of_mem a he)
    replace ih := ih hba' hao'
    rw [askSum_cons a as] at hupp
    simp only [List.zip_cons_cons, List.foldl_cons]
    rw [askSum_cons a as]
    cases ha : a.state with
    | buy =>
      rw [buyBidSum_cons_buy as ha] at hlow
      rw [buyBidSum_cons_buy as ha]
      cases hb : b.state with
      | sell =>
        rw [buyBidSum_cons_sell bs hb]
        have hstep : weStep v (a, b) = v - (a.bid_value : Int) := by
          simp only [weStep, ha, hb]
          rw [u64AsI64_eq (le_trans hba1 hao1)]
          apply i64Wrap_eq_self
          · push_cast at hlow ⊢
            unfold TWO63
            omega
          · push_cast at hupp ⊢
            unfold I64_MAX at *
            omega
        rw [hstep]
        obtain ⟨hr1, hr2⟩ := ih (v - (a.bid_value : Int))
          (by push_cast at hlow ⊢; omega)
          (by push_cast at hupp ⊢; omega)
        push_cast at hr1 hr2 hlow hupp ⊢
        constructor
        · omega
        · omega
      | buy =>
        rw [buyBidSum_cons_buy bs hb]
        have hstep : weStep v (a, b) = v := by simp only [weStep, ha, hb]
        rw [hstep]
        obtain ⟨hr1, hr2⟩ := ih v
          (by push_cast at hlow ⊢; omega)
          (by push_cast at hupp ⊢; omega)
        push_cast at hr1 hr2 hlow hupp ⊢
        rw [← hbb]
        constructor
        · omega
        · omega
    | sell =>
      rw [buyBidSum_cons_sell as ha] at hlow
      rw [buyBidSum_cons_sell as ha]
      cases hb : b.state with
      | buy =>
        rw [buyBidSum_cons_buy bs hb]
        have hstep : weStep v (a, b) = v + (a.ask_value : Int) := by
          simp only [weStep, ha, hb]
          rw [u64AsI64_eq hao1]
          apply i64Wrap_eq_self
          · push_cast at hlow ⊢
            unfold TWO63
            omega
          · push_cast at hupp ⊢
            unfold I64_MAX at *
            omega
        rw [hstep]
        obtain ⟨hr1, hr2⟩ := ih (v + (a.ask_value : Int))
          (by push_cast at hlow ⊢; omega)
          (by push_cast at hupp ⊢; omega)
        push_cast at hr1 hr2 hlow hupp ⊢
        rw [← hbb]
        constructor
        · omega
        · omega
      | sell =>
        rw [buyBidSum_cons_sell bs hb]
        have hstep : weStep v (a, b) = v := by simp only [weStep, ha, hb]
        rw [hstep]
        obtain ⟨hr1, hr2⟩ := ih v
          (by push_cast at hlow ⊢; omega)
          (by push_cast at hupp ⊢; omega)
        push_cast at hr1 hr2 hlow hupp ⊢
        constructor
        · omega
        · omega

/-- C5 counterexample: a one-entry Sell order built by `new` (value =
`MIN_BOX_VALUE`), after its only legal transition (an ask fill, Sell→Buy),
gets value `MIN_BOX_VALUE + ask_value = 1000200` from `with_entries`, while
the claimed equality demands `MIN_BOX_VALUE + bid_value = 1000100`:
`with_entries` adds the ask, not the bid, so the equality is not
preserved. -/
theorem multigrid_value_invariant_counterexample :
    MultiGridOrder.new 3 [⟨.sell, 10, 100, 200⟩] = some c5o ∧
    intoFillAsk c5o.entries = some [⟨.buy, 10, 100, 200⟩] ∧
    c5o.with_entries [⟨.buy, 10, 100, 200⟩]
      = some ⟨3, [⟨.buy, 10, 100, 200⟩], 1000200⟩ ∧
    (1000200 : Nat) ≠ MIN_BOX_VALUE + buyBidSum [⟨.buy, 10, 100, 200⟩] := by
  decide

/-- C5 amended: the equality `value = MIN_BOX_VALUE + Σ bid_value (Buy
entries)` is established by `MultiGridOrder::new`; `with_entries` preserves
it only as a **lower bound** (each Sell→Buy flip adds the rung's
`ask_value`, not its `bid_value`, so the surplus `value - bound` grows by
`ask - bid ≥ 0` whenever `ask ≥ bid` on every rung); and the box decoder
checks the bound only for orders with no Sell entries (token-free boxes). -/
theorem multigrid_value_invariant_amended :
    (∀ (tid : Nat) (es : List GridOrderEntry) (o : MultiGridOrder),
        MultiGridOrder.new tid es = some o →
        o.value = MIN_BOX_VALUE + buyBidSum es ∧ o.entries = es) ∧
    (∀ (o : MultiGridOrder) (es' : List GridOrderEntry) (o' : MultiGridOrder),
        List.Forall₂
          (fun a b => a.bid_value = b.bid_value ∧ a.ask_value = b.ask_value)
          o.entries es' →
        (∀ e ∈ o.entries, e.bid_value ≤ e.ask_value) →
        (∀ e ∈ o.entries, e.ask_value ≤ I64_MAX) →
        o.value + askSum o.entries ≤ I64_MAX →
        MIN_BOX_VALUE + buyBidSum o.entries ≤ o.value →
        o.with_entries es' = some o' →
        MIN_BOX_VALUE + buyBidSum es' ≤ o'.value ∧ o'.entries = es') ∧
    (∀ (value tid : Nat) (es : List GridOrderEntry) (o : MultiGridOrder),
        allBidSum es + MIN_BOX_VALUE < U64_MOD →
        multiGridDecode value none tid es = some o →
        MIN_BOX_VALUE + buyBidSum es ≤ o.value ∧ o.value = value ∧
        o.entries = es) := by
  refine ⟨?_, ?_, ?_⟩
  · intro tid es o h
    unfold MultiGridOrder.new at h
    cases hfold : (es.filter (fun e => e.state == OrderState.buy)).foldl
        (fun acc e => acc.bind (fun a =>
          if a + e.bid_value < U64_MOD then some (a + e.bid_value) else none))
        (some MIN_BOX_VALUE) with
    | none => rw [hfold] at h; exact absurd h (by simp)
    | some v =>
      rw [hfold] at h
      split at h
      · exact absurd h (by simp)
      · rename_i ya heq
        replace heq := Option.some_injective _ heq
        split at h
        · replace h := Option.some_injective _ h
          rw [← h]
          refine ⟨?_, rfl⟩
          have hv : v = MIN_BOX_VALUE + buyBidSum es := by
            unfold buyBidSum
            exact mgNewFold_some _ _ _ hfold
          dsimp only
          omega
        · exact absurd h (by simp)
  · intro o es' o' hf hba hao hupp hlow h
    unfold MultiGridOrder.with_entries at h
    dsimp only at h
    split at h
    · rename_i hok
      replace h := Option.some_injective _ h
      have hvI : u64AsI64 o.value = (o.value : Int) := by
        apply u64AsI64_eq
        omega
      rw [hvI] at h hok
      obtain ⟨hr1, _⟩ := weFold_bound o.entries es' hf hba hao (o.value : Int)
        (by push_cast; omega) (by push_cast; omega)
      rw [← h]
      dsimp only
      constructor
      · have htn : (((o.entries.zip es').foldl weStep (o.value : Int)).toNat : Int)
            = (o.entries.zip es').foldl weStep (o.value : Int) :=
          Int.toNat_of_nonneg (by omega)
        push_cast at hr1 ⊢
        omega
      · rfl
    · exact absurd h (by simp)
  · intro value tid es o hwrap hdec
    unfold multiGridDecode at hdec
    dsimp only at hdec
    split at hdec
    · exact absurd hdec (by simp)
    · split at hdec
      · exact absurd hdec (by simp)
      · rename_i hexp hval
        replace hdec := Option.some_injective _ hdec
        rw [← hdec]
        dsimp only
        rw [Nat.mod_eq_of_lt hwrap] at hval
        have hsub := buyBidSum_le_allBidSum es
        refine ⟨by omega, rfl, rfl⟩

/-- C5 amended witness: a one-entry Buy order built by `new` gets value
`MIN_BOX_VALUE + buyBidSum` exactly. -/
theorem multigrid_value_invariant_amended_witness :
    (⟨5, [⟨.buy, 10, 100, 200⟩], 1000100⟩ : MultiGridOrder).value
      = MIN_BOX_VALUE + buyBidSum [⟨.buy, 10, 100, 200⟩] := by
  have h := multigrid_value_invariant_amended.1 5 [⟨.buy, 10, 100, 200⟩]
    ⟨5, [⟨.buy, 10, 100, 200⟩], 1000100⟩ (by decide)
  exact h.1

/-! ## C3 — greedy surplus monotonicity of the multi-entry engine -/

theorem chooseBestAux_some :
    ∀ (l : List (Nat × MatchState × SurplusResult))
      (acc : Option (Nat × MatchState × SurplusResult))
      (c : Nat × MatchState × SurplusResult),
      chooseBestAux acc l = some c → acc = some c ∨ c ∈ l := by
  intro l
  induction l with
  | nil =>
    intro acc c h
    cases acc with
    | none => exact Or.inl h
    | some b => exact Or.inl h
  | cons x t ih =>
    intro acc c h
    cases acc with
    | none =>
      rcases ih (some x) c h with hx | hm
      · exact Or.inr (by simp [Option.some_injective _ hx])
      · exact Or.inr (by simp [hm])
    | some b =>
      rw [chooseBestAux] at h
      rcases ih _ c h with hx | hm
      · by_cases hcond : b.2.2.surplus ≤ x.2.2.surplus
        · rw [if_pos hcond] at hx
          exact Or.inr (by simp [Option.some_injective _ hx])
        · rw [if_neg hcond] at hx
          exact Or.inl hx
      · exact Or.inr (by simp [hm])

theorem chooseBest_mem (cands : List (Nat × MatchState × SurplusResult))
    (c : Nat × MatchState × SurplusResult) (h : chooseBest cands = some c) :
    c ∈ cands := by
  rcases chooseBestAux_some cands none c h with hx | hm
  · exact absurd hx (by simp)
  · exact hm

/-- Every committed step strictly increases the running surplus. -/
theorem multiStep_commit_surplus {P : Type} (I : LPI P) (p : P)
    (s s' : MultiLoopState) (h : multiStep I p s = .ok (some s')) :
    s.surplus < s'.surplus := by
  unfold multiStep at h
  split at h
  · exact absurd h (by simp)
  · split at h
    · split at h
      · split at h
        · exact absurd h (by simp)
        · rename_i cands hcol i st r hcb hgt m st' hfill
          replace h := Option.some_injective _ (Except.ok.inj h)
          rw [← h]
          exact hgt
      · exact absurd h (by simp)
    · exact absurd h (by simp)

/-- The running surplus is non-decreasing across the whole loop. -/
theorem multiLoop_mono {P : Type} (I : LPI P) (p : P) :
    ∀ (fuel : Nat) (s s'' : MultiLoopState),
      multiLoop I p fuel s = .ok s'' → s.surplus ≤ s''.surplus := by
  intro fuel
  induction fuel with
  | zero =>
    intro s s'' h
    rw [Except.ok.inj h]
  | succ fuel ih =>
    intro s s'' h
    unfold multiLoop at h
    split at h
    · exact absurd h (by simp)
    · rw [Except.ok.inj h]
    · rename_i s1 hstep
      exact le_trans (le_of_lt (multiStep_commit_surplus I p s s1 hstep))
        (ih s1 s'' h)

/-- If no eligible candidate beats the running surplus, the step breaks. -/
theorem multiStep_stop {P : Type} (I : LPI P) (p : P) (s : MultiLoopState)
    (cands : List (Nat × MatchState × SurplusResult))
    (hcol : collectCandidates I p s.states s.dx s.dy = .ok cands)
    (hle : ∀ c ∈ cands, c.2.2.surplus ≤ s.surplus) :
    multiStep I p s = .ok none := by
  unfold multiStep
  rw [hcol]
  dsimp only
  cases hcb : chooseBest cands with
  | none => rfl
  | some c =>
    obtain ⟨i, st, r⟩ := c
    have hmem := chooseBest_mem cands (i, st, r) hcb
    have hler : r.surplus ≤ s.surplus := hle (i, st, r) hmem
    dsimp only
    rw [if_neg (by omega)]

/-- C3: in `FillMultiGridOrders::fill_orders`, a candidate fill is committed
only if its surplus strictly exceeds the current running surplus (so the
running surplus strictly increases at every commit and is non-decreasing
across the loop), and the loop stops — returning the current state — as
soon as no eligible candidate's surplus strictly exceeds the running
surplus. -/
theorem multi_engine_greedy_surplus {P : Type} (I : LPI P) (p : P)
    (s : MultiLoopState) :
    (∀ s', multiStep I p s = .ok (some s') → s.surplus < s'.surplus) ∧
    (∀ fuel s'', multiLoop I p fuel s = .ok s'' → s.surplus ≤ s''.surplus) ∧
    (∀ fuel cands, collectCandidates I p s.states s.dx s.dy = .ok cands →
        (∀ c ∈ cands, c.2.2.surplus ≤ s.surplus) →
        multiLoop I p fuel s = .ok s) := by
  refine ⟨fun s' h => multiStep_commit_surplus I p s s' h,
          fun fuel s'' h => multiLoop_mono I p fuel s s'' h,
          fun fuel cands hcol hle => ?_⟩
  have hstop := multiStep_stop I p s cands hcol hle
  cases fuel with
  | zero => rfl
  | succ fuel =>
    unfold multiLoop
    rw [hstop]

/-- C3 witness: a concrete provider and one Buy entry commit a fill with
surplus `99 > 0`. -/
theorem multi_engine_greedy_surplus_witness :
    w3s.surplus
      < (⟨[.matchedBid [⟨.sell, 10, 100, 200⟩]], 100, -10, 99⟩ :
          MultiLoopState).surplus :=
  (multi_engine_greedy_surplus w3I () w3s).1
    ⟨[.matchedBid [⟨.sell, 10, 100, 200⟩]], 100, -10, 99⟩ (by decide)

/-! ## C9 — the wrong-side panic branches are unreachable -/

theorem bidEntrySelAux_buy :
    ∀ (l : List (Nat × GridOrderEntry)) (acc : Option (Nat × GridOrderEntry)),
      (∀ je, acc = some je → je.2.state = OrderState.buy) →
      ∀ ie, bidEntrySelAux acc l = some ie → ie.2.state = OrderState.buy := by
  intro l
  induction l with
  | nil =>
    intro acc hacc ie h
    exact hacc ie h
  | cons x t ih =>
    intro acc hacc ie h
    rw [bidEntrySelAux.eq_def] at h
    dsimp only at h
    by_cases hx : x.2.state = OrderState.buy
    · rw [if_pos hx] at h
      cases acc with
      | none => exact ih (some x) (fun je hje => (Option.some_injective _ hje) ▸ hx) ie h
      | some je =>
        dsimp only at h
        by_cases hcmp : fracLe je.2.bid_value je.2.token_amount x.2.bid_value x.2.token_amount = true
        · rw [if_pos hcmp] at h
          exact ih (some x) (fun ke hke => (Option.some_injective _ hke) ▸ hx) ie h
        · rw [if_neg hcmp] at h
          exact ih (some je) (fun ke hke =>
            (Option.some_injective _ hke) ▸ hacc je rfl) ie h
    · rw [if_neg hx] at h
      exact ih acc hacc ie h

theorem bidEntrySel_buy (es : List GridOrderEntry) (ie : Nat × GridOrderEntry)
    (h : bidEntrySel es = some ie) : ie.2.state = OrderState.buy :=
  bidEntrySelAux_buy es.enum none (fun _ hje => absurd hje (by simp)) ie h

theorem askEntrySelAux_sell :
    ∀ (l : List (Nat × GridOrderEntry)) (acc : Option (Nat × GridOrderEntry)),
      (∀ je, acc = some je → je.2.state = OrderState.sell) →
      ∀ ie, askEntrySelAux acc l = some ie → ie.2.state = OrderState.sell := by
  intro l
  induction l with
  | nil =>
    intro acc hacc ie h
    exact hacc ie h
  | cons x t ih =>
    intro acc hacc ie h
    rw [askEntrySelAux.eq_def] at h
    dsimp only at h
    by_cases hx : x.2.state = OrderState.sell
    · rw [if_pos hx] at h
      cases acc with
      | none => exact ih (some x) (fun je hje => (Option.some_injective _ hje) ▸ hx) ie h
      | some je =>
        dsimp only at h
        by_cases hcmp : fracLt x.2.ask_value x.2.token_amount je.2.ask_value je.2.token_amount = true
        · rw [if_pos hcmp] at h
          exact ih (some x) (fun ke hke => (Option.some_injective _ hke) ▸ hx) ie h
        · rw [if_neg hcmp] at h
          exact ih (some je) (fun ke hke =>
            (Option.some_injective _ hke) ▸ hacc je rfl) ie h
    · rw [if_neg hx] at h
      exact ih acc hacc ie h

theorem askEntrySel_sell (es : List GridOrderEntry) (ie : Nat × GridOrderEntry)
    (h : askEntrySel es = some ie) : ie.2.state = OrderState.sell :=
  askEntrySelAux_sell es.enum none (fun _ hje => absurd hje (by simp)) ie h

/-- `calculate_surplus` copies the candidate entry's state into
`matched_state`. -/
theorem calcSurplus_state {P : Type} (I : LPI P) (p : P) (e : GridOrderEntry)
    (cx cy : Int) (r : SurplusResult)
    (h : calcSurplus I p e cx cy = .ok (some r)) :
    r.matched_state = e.state := by
  unfold calcSurplus at h
  repeat'
    first
      | split at h
      | dsimp only at h
  all_goals
    first
      | (replace h := Option.some_injective _ (Except.ok.inj h); rw [← h])
      | exact absurd h (by simp)

/-- The only panics `calculate_surplus` itself can raise are the
`expect("non-zero")` token-amount panic or a panic propagated from the
provider's quote functions. -/
theorem calcSurplus_error {P : Type} (I : LPI P) (p : P) (e : GridOrderEntry)
    (cx cy : Int) (m : PanicMsg)
    (h : calcSurplus I p e cx cy = .error m) :
    m = .expectTokenAmount ∨ (∃ t, I.output_amount p t = .panic m) ∨
    (∃ t, I.input_amount p t = .panic m) := by
  unfold calcSurplus at h
  repeat'
    first
      | split at h
      | dsimp only at h
  all_goals
    first
      | (replace h := Except.error.inj h; subst h; exact Or.inl rfl)
      | (replace h := Except.error.inj h; subst h;
         exact Or.inr (Or.inl ⟨_, by assumption⟩))
      | (replace h := Except.error.inj h; subst h;
         exact Or.inr (Or.inr ⟨_, by assumption⟩))
      | exact absurd h (by simp)

/-- Same classification for `state_surplus`. -/
theorem state_surplus_error {P : Type} (I : LPI P) (p : P) (cx cy : Int)
    (st : MatchState) (m : PanicMsg)
    (h : st.state_surplus I p cx cy = .error m) :
    m = .expectTokenAmount ∨ (∃ t, I.output_amount p t = .panic m) ∨
    (∃ t, I.input_amount p t = .panic m) := by
  cases st with
  | notMatched es =>
    unfold MatchState.state_surplus at h
    dsimp only at h
    split at h
    · rename_i m0 heq
      replace h := Except.error.inj h
      subst h
      split at heq
      · exact calcSurplus_error I p _ cx cy _ heq
      · exact absurd heq (by simp)
    · split at h
      · rename_i m0 heq
        replace h := Except.error.inj h
        subst h
        split at heq
        · exact calcSurplus_error I p _ cx cy _ heq
        · exact absurd heq (by simp)
      · exact absurd h (by simp)
  | matchedBid es =>
    unfold MatchState.state_surplus at h
    dsimp only at h
    split at h
    · exact calcSurplus_error I p _ cx cy m h
    · exact absurd h (by simp)
  | matchedAsk es =>
    unfold MatchState.state_surplus at h
    dsimp only at h
    split at h
    · exact calcSurplus_error I p _ cx cy m h
    · exact absurd h (by simp)

/-- When `state_surplus` yields a candidate, the fill call on the candidate's
matched side succeeds: a `MatchedBid` state only yields Buy candidates (so
`fill_bid` finds its entry) and a `MatchedAsk` state only Sell candidates. -/
theorem state_surplus_fill_ok {P : Type} (I : LPI P) (p : P) (cx cy : Int)
    (st : MatchState) (r : SurplusResult)
    (h : st.state_surplus I p cx cy = .ok (some r)) :
    (r.matched_state = .buy → ∃ st', st.fill_bid = .ok st') ∧
    (r.matched_state = .sell → ∃ st', st.fill_ask = .ok st') := by
  cases st with
  | matchedBid es =>
    unfold MatchState.state_surplus at h
    dsimp only at h
    split at h
    · rename_i ie hsel
      have hbuy : r.matched_state = .buy :=
        (calcSurplus_state I p ie.2 cx cy r h).trans (bidEntrySel_buy es ie hsel)
      constructor
      · intro _
        refine ⟨.matchedBid (setStateAt es ie.1 .sell), ?_⟩
        unfold MatchState.fill_bid
        dsimp only
        rw [hsel]
      · intro hsell
        rw [hbuy] at hsell
        exact absurd hsell (by simp)
    · exact absurd h (by simp)
  | matchedAsk es =>
    unfold MatchState.state_surplus at h
    dsimp only at h
    split at h
    · rename_i ie hsel
      have hsellr : r.matched_state = .sell :=
        (calcSurplus_state I p ie.2 cx cy r h).trans (askEntrySel_sell es ie hsel)
      constructor
      · intro hbuy
        rw [hsellr] at hbuy
        exact absurd hbuy (by simp)
      · intro _
        refine ⟨.matchedAsk (setStateAt es ie.1 .buy), ?_⟩
        unfold MatchState.fill_ask
        dsimp only
        rw [hsel]
    · exact absurd h (by simp)
  | notMatched es =>
    unfold MatchState.state_surplus at h
    dsimp only at h
    split at h
    · exact absurd h (by simp)
    · rename_i bidS hbid
      split at h
      · exact absurd h (by simp)
      · rename_i askS hask
        replace h := Except.ok.inj h
        -- h : (match bidS, askS with ...) = some r
        have hside :
            (bidEntrySel es = none → bidS = none) ∧
            (∀ ie, bidEntrySel es = some ie → bidS = none ∨
              (∃ rb, bidS = some rb ∧ rb.matched_state = .buy)) := by
          constructor
          · intro hn
            rw [hn] at hbid
            exact (Except.ok.inj hbid).symm
          · intro ie hie
            rw [hie] at hbid
            cases bidS with
            | none => exact Or.inl rfl
            | some rb =>
              refine Or.inr ⟨rb, rfl, ?_⟩
              exact (calcSurplus_state I p ie.2 cx cy rb hbid).trans
                (bidEntrySel_buy es ie hie)
        have haside :
            (askEntrySel es = none → askS = none) ∧
            (∀ ie, askEntrySel es = some ie → askS = none ∨
              (∃ ra, askS = some ra ∧ ra.matched_state = .sell)) := by
          constructor
          · intro hn
            rw [hn] at hask
            exact (Except.ok.inj hask).symm
          · intro ie hie
            rw [hie] at hask
            cases askS with
            | none => exact Or.inl rfl
            | some ra =>
              refine Or.inr ⟨ra, rfl, ?_⟩
              exact (calcSurplus_state I p ie.2 cx cy ra hask).trans
                (askEntrySel_sell es ie hie)
        -- case on the combination
        cases hbS : bidS with
        | none =>
          cases haS : askS with
          | none => rw [hbS, haS] at h; exact absurd h (by simp)
          | some ra =>
            rw [hbS, haS] at h
            replace h := Option.some_injective _ h
            subst h
            -- r = ra, a sell candidate from the ask entry
            cases hsel : askEntrySel es with
            | none =>
              rw [(haside.1 hsel)] at haS
              exact absurd haS (by simp)
            | some ie =>
              rcases haside.2 ie hsel with hn | ⟨ra0, hra0, hst⟩
              · rw [hn] at haS; exact absurd haS (by simp)
              · rw [haS] at hra0
                replace hra0 := Option.some_injective _ hra0
                subst hra0
                constructor
                · intro hbuy
                  rw [hst] at hbuy
                  exact absurd hbuy (by simp)
                · intro _
                  refine ⟨.matchedAsk (setStateAt es ie.1 .buy), ?_⟩
                  unfold MatchState.fill_ask
                  dsimp only
                  rw [hsel]
        | some rb =>
          have hrb : ∃ ie, bidEntrySel es = some ie ∧ rb.matched_state = .buy := by
            cases hsel : bidEntrySel es with
            | none =>
              rw [hside.1 hsel] at hbS
              exact absurd hbS (by simp)
            | some ie =>
              rcases hside.2 ie hsel with hn | ⟨rb0, hrb0, hst⟩
              · rw [hn] at hbS; exact absurd hbS (by simp)
              · rw [hbS] at hrb0
                replace hrb0 := Option.some_injective _ hrb0
                subst hrb0
                exact ⟨ie, rfl, hst⟩
          obtain ⟨ieb, hselb, hstb⟩ := hrb
          have hfillb : ∃ st', (MatchState.notMatched es).fill_bid = .ok st' := by
            refine ⟨.matchedBid (setStateAt es ieb.1 .sell), ?_⟩
            unfold MatchState.fill_bid
            dsimp only
            rw [hselb]
          cases haS : askS with
          | none =>
            rw [hbS, haS] at h
            replace h := Option.some_injective _ h
            subst h
            constructor
            · intro _; exact hfillb
            · intro hsell
              rw [hstb] at hsell
              exact absurd hsell (by simp)
          | some ra =>
            have hra : ∃ ie, askEntrySel es = some ie ∧ ra.matched_state = .sell := by
              cases hsel : askEntrySel es with
              | none =>
                rw [haside.1 hsel] at haS
                exact absurd haS (by simp)
              | some ie =>
                rcases haside.2 ie hsel with hn | ⟨ra0, hra0, hst⟩
                · rw [hn] at haS; exact absurd haS (by simp)
                · rw [haS] at hra0
                  replace hra0 := Option.some_injective _ hra0
                  subst hra0
                  exact ⟨ie, rfl, hst⟩
            obtain ⟨iea, hsela, hsta⟩ := hra
            have hfilla : ∃ st', (MatchState.notMatched es).fill_ask = .ok st' := by
              refine ⟨.matchedAsk (setStateAt es iea.1 .buy), ?_⟩
              unfold MatchState.fill_ask
              dsimp only
              rw [hsela]
            rw [hbS, haS] at h
            dsimp only at h
            by_cases hcmp : rb.surplus > ra.surplus
            · rw [if_pos hcmp] at h
              replace h := Option.some_injective _ h
              subst h
              constructor
              · intro _; exact hfillb
              · intro hsell
                rw [hstb] at hsell
                exact absurd hsell (by simp)
            · rw [if_neg hcmp] at h
              replace h := Option.some_injective _ h
              subst h
              constructor
              · intro hbuy
                rw [hsta] at hbuy
                exact absurd hbuy (by simp)
              · intro _; exact hfilla

/-- Every candidate kept by the scan either was already in the accumulator or
is the `state_surplus` result of its own state. -/
theorem collectCandidatesAux_mem {P : Type} (I : LPI P) (p : P) (dx dy : Int) :
    ∀ (l : List (Nat × MatchState)) (acc cands : List (Nat × MatchState × SurplusResult)),
      collectCandidatesAux I p dx dy l acc = .ok cands →
      ∀ c ∈ cands, c ∈ acc ∨ c.2.1.state_surplus I p dx dy = .ok (some c.2.2) := by
  intro l
  induction l with
  | nil =>
    intro acc cands h c hc
    replace h := Except.ok.inj h
    subst h
    exact Or.inl hc
  | cons x t ih =>
    intro acc cands h c hc
    rw [collectCandidatesAux.eq_def] at h
    dsimp only at h
    cases hs : MatchState.state_surplus I p dx dy x.2 with
    | error m => rw [hs] at h; exact absurd h (by simp)
    | ok o =>
      rw [hs] at h
      cases o with
      | none => exact ih acc cands h c hc
      | some r =>
        dsimp only at h
        split at h
        · rcases ih (acc ++ [(x.1, x.2, r)]) cands h c hc with hin | hsur
          · rcases List.mem_append.mp hin with hin' | hin'
            · exact Or.inl hin'
            · have hc' : c = (x.1, x.2, r) := by
                simpa using hin'
              subst hc'
              exact Or.inr hs
          · exact Or.inr hsur
        · exact ih acc cands h c hc

/-- If the scan fails, some state's `state_surplus` failed with that message. -/
theorem collectCandidatesAux_error {P : Type} (I : LPI P) (p : P) (dx dy : Int) :
    ∀ (l : List (Nat × MatchState)) (acc : List (Nat × MatchState × SurplusResult))
      (m : PanicMsg),
      collectCandidatesAux I p dx dy l acc = .error m →
      ∃ st : MatchState, st.state_surplus I p dx dy = .error m := by
  intro l
  induction l with
  | nil =>
    intro acc m h
    exact absurd h (by simp [collectCandidatesAux])
  | cons x t ih =>
    intro acc m h
    rw [collectCandidatesAux.eq_def] at h
    dsimp only at h
    cases hs : MatchState.state_surplus I p dx dy x.2 with
    | error m' =>
      rw [hs] at h
      replace h := Except.error.inj h
      subst h
      exact ⟨x.2, hs⟩
    | ok o =>
      rw [hs] at h
      cases o with
      | none => exact ih acc m h
      | some r =>
        dsimp only at h
        split at h
        · exact ih _ m h
        · exact ih acc m h

/-- `multiStep` can only fail with the `expect` panic or a panic propagated
from the provider's quote functions: in particular, the committed candidate's
fill never hits the wrong-side branches. -/
theorem multiStep_error {P : Type} (I : LPI P) (p : P) (s : MultiLoopState)
    (m : PanicMsg) (h : multiStep I p s = .error m) :
    m = .expectTokenAmount ∨ (∃ t, I.output_amount p t = .panic m) ∨
    (∃ t, I.input_amount p t = .panic m) := by
  unfold multiStep at h
  cases hc : collectCandidates I p s.states s.dx s.dy with
  | error m' =>
    rw [hc] at h
    replace h := Except.error.inj h
    subst h
    obtain ⟨st, hst⟩ := collectCandidatesAux_error I p s.dx s.dy _ _ m' hc
    exact state_surplus_error I p s.dx s.dy st m' hst
  | ok cands =>
    rw [hc] at h
    dsimp only at h
    cases hb : chooseBest cands with
    | none => rw [hb] at h; exact absurd h (by simp)
    | some c =>
      rw [hb] at h
      obtain ⟨i, st, r⟩ := c
      dsimp only at h
      split at h
      · have hmem := chooseBest_mem cands (i, st, r) hb
        have hsur : st.state_surplus I p s.dx s.dy = .ok (some r) := by
          rcases collectCandidatesAux_mem I p s.dx s.dy _ _ _ hc (i, st, r) hmem with
            hin | hsur
          · exact absurd hin (by simp)
          · exact hsur
        have hfill := state_surplus_fill_ok I p s.dx s.dy st r hsur
        cases hms : r.matched_state with
        | buy =>
          rw [hms] at h
          dsimp only at h
          obtain ⟨st', hok⟩ := hfill.1 hms
          rw [hok] at h
          exact absurd h (by simp)
        | sell =>
          rw [hms] at h
          dsimp only at h
          obtain ⟨st', hok⟩ := hfill.2 hms
          rw [hok] at h
          exact absurd h (by simp)
      · exact absurd h (by simp)

/-- The loop inherits `multiStep`'s failure classification. -/
theorem multiLoop_error {P : Type} (I : LPI P) (p : P) :
    ∀ (fuel : Nat) (s : MultiLoopState) (m : PanicMsg),
      multiLoop I p fuel s = .error m →
      m = .expectTokenAmount ∨ (∃ t, I.output_amount p t = .panic m) ∨
      (∃ t, I.input_amount p t = .panic m) := by
  intro fuel
  induction fuel with
  | zero =>
    intro s m h
    exact absurd h (by simp [multiLoop])
  | succ n ih =>
    intro s m h
    rw [multiLoop.eq_def] at h
    dsimp only at h
    cases hst : multiStep I p s with
    | error m' =>
      rw [hst] at h
      replace h := Except.error.inj h
      subst h
      exact multiStep_error I p s m' hst
    | ok o =>
      rw [hst] at h
      cases o with
      | none => exact absurd h (by simp)
      | some s' => exact ih s' m h

/-- The wrong-side test only looks at the panic message. -/
theorem isWrongSidePanic_panic {α β : Type} (m : PanicMsg) :
    isWrongSidePanic (.panic m : PRes α) = isWrongSidePanic (.panic m : PRes β) := by
  cases m <;> rfl

/-- `SpectrumPool::output_amount` panics only with division by zero, never
with a wrong-side message. -/
theorem spectrum_output_no_wrong (p : SpectrumPool) (t : SToken) :
    isWrongSidePanic (p.output_amount t) = false := by
  unfold SpectrumPool.output_amount outputAmountCore
  repeat'
    first
      | split
      | dsimp only
  all_goals rfl

/-- `SpectrumPool::input_amount` panics only with division by zero. -/
theorem spectrum_input_no_wrong (p : SpectrumPool) (t : SToken) :
    isWrongSidePanic (p.input_amount t) = false := by
  unfold SpectrumPool.input_amount inputAmountCore
  repeat'
    first
      | split
      | dsimp only
  all_goals rfl

/-- `SpectrumPool::with_swap` only propagates `output_amount`'s panic. -/
theorem spectrum_swap_no_wrong (p : SpectrumPool) (t : SToken) :
    isWrongSidePanic (p.with_swap t) = false := by
  unfold SpectrumPool.with_swap
  cases ho : p.output_amount t with
  | ok output =>
    dsimp only
    repeat'
      first
        | split
        | dsimp only
    all_goals rfl
  | err e => rfl
  | panic m =>
    have := spectrum_output_no_wrong p t
    rw [ho] at this
    dsimp only
    rw [isWrongSidePanic_panic m]
    exact this

/-- Every `SpectrumPool` is a provider without wrong-side panics. -/
theorem spectrum_no_wrong (p : SpectrumPool) : lpiNoWrongPanic spectrumLPI p :=
  ⟨fun t => spectrum_output_no_wrong p t,
   fun t => spectrum_input_no_wrong p t,
   fun t => spectrum_swap_no_wrong p t⟩

/-- Transport a no-wrong-panic fact along an equation, across result types. -/
theorem noWrong_of_eq_panic {α β : Type} {r : PRes α} {m : PanicMsg}
    (hr : isWrongSidePanic r = false) (he : r = .panic m) :
    isWrongSidePanic (.panic m : PRes β) = false :=
  (@isWrongSidePanic_panic β α m).trans (he ▸ hr)

/-- C9: for every provider whose quote and swap functions never raise the
engine's wrong-side messages (every well-behaved provider, `SpectrumPool` in
particular), `FillMultiGridOrders::fill_orders` never reaches the panic
branches of `OrderMatchingState::fill_bid`/`fill_ask` ("Cannot fill bid when
ask is already filled" and vice versa): every committed candidate's matched
side comes from `state_surplus` of that same state, which for a `MatchedBid`
state only yields Buy-side candidates and for a `MatchedAsk` state only
Sell-side candidates, so the matching fill always succeeds. -/
theorem multi_engine_no_wrong_side_panic {P : Type} (I : LPI P) (p : P)
    (h : lpiNoWrongPanic I p) (orders : List MultiGridOrder) (fuel : Nat) :
    isWrongSidePanic (multiFillOrders I p orders fuel) = false := by
  obtain ⟨ho, hi, hw⟩ := h
  unfold multiFillOrders
  dsimp only
  split
  · rename_i m hl
    rcases multiLoop_error I p fuel _ m hl with hm | ⟨t, ht⟩ | ⟨t, ht⟩
    · subst hm; rfl
    · exact noWrong_of_eq_panic (ho t) ht
    · exact noWrong_of_eq_panic (hi t) ht
  · rename_i fin hl
    split
    · cases hs : I.with_swap p ⟨(I.asset_y p).tokenId, fin.dy.toNat⟩ with
      | ok p' => rfl
      | err e => rfl
      | panic m =>
        dsimp only
        exact noWrong_of_eq_panic (hw _) hs
    · split
      · split
        · rfl
        · cases hin : I.input_amount p ⟨(I.asset_y p).tokenId, (-fin.dy).toNat⟩ with
          | err e => rfl
          | panic m =>
            dsimp only
            exact noWrong_of_eq_panic (hi _) hin
          | ok input =>
            dsimp only
            cases hs2 : I.with_swap p input with
            | ok p' => rfl
            | err e => rfl
            | panic m =>
              dsimp only
              exact noWrong_of_eq_panic (hw _) hs2
      · rfl

/-- Witness: the `SpectrumPool` provider satisfies the hypothesis, and the
engine run on a concrete order is wrong-side-panic-free. -/
theorem multi_engine_no_wrong_side_panic_witness :
    lpiNoWrongPanic spectrumLPI c2pool ∧
    isWrongSidePanic (multiFillOrders spectrumLPI c2pool [c5o] 3) = false :=
  ⟨spectrum_no_wrong c2pool,
   multi_engine_no_wrong_side_panic spectrumLPI c2pool (spectrum_no_wrong c2pool)
     [c5o] 3⟩

/-! ## C8 — single-order engine guarantees -/

/-- The best-candidate fold returns the accumulator or a list element. -/
theorem singleBestFold_mem :
    ∀ (l : List (Nat × SingleCand)) (acc c : Option (Nat × SingleCand)),
      l.foldl
        (fun best c =>
          match best with
          | none => some c
          | some b => if b.2.surplus ≤ c.2.surplus then some c else some b)
        acc = c →
      ∀ ic, c = some ic → acc = some ic ∨ ic ∈ l := by
  intro l
  induction l with
  | nil =>
    intro acc c h ic hic
    exact Or.inl (h.trans hic)
  | cons x t ih =>
    intro acc c h ic hic
    rw [List.foldl_cons] at h
    rcases ih _ c h ic hic with hacc | hmem
    · cases acc with
      | none =>
        dsimp only at hacc
        replace hacc := Option.some_injective _ hacc
        exact Or.inr (hacc ▸ List.mem_cons_self x t)
      | some b =>
        dsimp only at hacc
        split at hacc
        · replace hacc := Option.some_injective _ hacc
          exact Or.inr (hacc ▸ List.mem_cons_self x t)
        · exact Or.inl hacc
    · exact Or.inr (List.mem_cons_of_mem x hmem)

/-- A candidate keeps its source order and records a successful
`into_filled` of that order. -/
theorem singleCandidate_spec {P : Type} (I : LPI P) (p : P)
    (s : SingleLoopState) (o : GridOrder) (c : SingleCand)
    (h : singleCandidate I p s o = some c) :
    c.order = o ∧ o.into_filled = some c.filled := by
  unfold singleCandidate at h
  repeat'
    first
      | split at h
      | dsimp only at h
  all_goals
    first
      | (rw [Option.map_eq_some'] at h
         obtain ⟨f, hf, hc⟩ := h
         subst hc
         exact ⟨rfl, hf⟩)
      | exact absurd h (by simp)

/-- One committed step keeps every remaining order an original same-side
order and extends the chosen list with a legally filled original order. -/
theorem singleStep_inv {P : Type} (I : LPI P) (p : P)
    (orders : List GridOrder) (state : OrderState) (s s' : SingleLoopState)
    (hrem : ∀ o ∈ s.remaining, o ∈ orders ∧ o.state = state)
    (hch : ∀ of ∈ s.chosen,
        of.1 ∈ orders ∧ of.1.state = state ∧ of.1.into_filled = some of.2)
    (h : singleStep I p s = some s') :
    (∀ o ∈ s'.remaining, o ∈ orders ∧ o.state = state) ∧
    (∀ of ∈ s'.chosen,
        of.1 ∈ orders ∧ of.1.state = state ∧ of.1.into_filled = some of.2) := by
  unfold singleStep at h
  dsimp only at h
  split at h
  case h_2 => exact absurd h (by simp)
  case h_1 i c hf =>
    replace h := Option.some_injective _ h
    subst h
    have hmem : (i, c) ∈
        (s.remaining.enum.filterMap
          (fun io => (singleCandidate I p s io.2).map (fun c => (io.1, c)))).filter
          (fun ic => decide (0 < ic.2.surplus)) := by
      rcases singleBestFold_mem _ none _ hf (i, c) rfl with hx | hx
      · exact absurd hx (by simp)
      · exact hx
    have hmem2 := (List.mem_filter.mp hmem).1
    rw [List.mem_filterMap] at hmem2
    obtain ⟨io, hio, hcand⟩ := hmem2
    rw [Option.map_eq_some'] at hcand
    obtain ⟨c0, hc0, hic⟩ := hcand
    have hcc : c0 = c := congrArg Prod.snd hic
    subst hcc
    have hoin : io.2 ∈ s.remaining :=
      List.getElem?_mem (List.mem_enum_iff_getElem?.mp hio)
    obtain ⟨horder, hfill⟩ := singleCandidate_spec I p s io.2 c0 hc0
    refine ⟨fun o ho => hrem o (List.eraseIdx_subset _ _ ho), fun of hof => ?_⟩
    rcases List.mem_append.mp hof with hold | hnew
    · exact hch of hold
    · have hof' : of = (c0.order, c0.filled) := by simpa using hnew
      subst hof'
      refine ⟨?_, ?_, ?_⟩
      · exact horder ▸ (hrem io.2 hoin).1
      · exact horder ▸ (hrem io.2 hoin).2
      · exact horder ▸ hfill

/-- The greedy loop preserves the invariant of `singleStep_inv`. -/
theorem singleLoop_inv {P : Type} (I : LPI P) (p : P)
    (orders : List GridOrder) (state : OrderState) :
    ∀ (fuel : Nat) (s : SingleLoopState),
      (∀ o ∈ s.remaining, o ∈ orders ∧ o.state = state) →
      (∀ of ∈ s.chosen,
          of.1 ∈ orders ∧ of.1.state = state ∧ of.1.into_filled = some of.2) →
      ∀ of ∈ (singleLoop I p fuel s).chosen,
        of.1 ∈ orders ∧ of.1.state = state ∧ of.1.into_filled = some of.2 := by
  intro fuel
  induction fuel with
  | zero =>
    intro s hrem hch
    exact hch
  | succ n ih =>
    intro s hrem hch
    rw [singleLoop.eq_def]
    dsimp only
    cases hst : singleStep I p s with
    | none => exact hch
    | some s' =>
      obtain ⟨hrem', hch'⟩ := singleStep_inv I p orders state s s' hrem hch hst
      exact ih s' hrem' hch'

/-- C8: the single-order engine returns exactly the greedily chosen pairs,
each second component the `into_filled` image of an original same-side
order; the returned provider reflects either no swap (zero totals) or
exactly one net swap for the accumulated total, whose input asset matches
the pass direction; and a cumulative total that is not a representable
token amount makes the routine fail with a token-amount error instead of
truncating. -/
theorem single_engine_guarantees {P : Type} (I : LPI P) (p : P)
    (orders : List GridOrder) (state : OrderState) (fuel : Nat) :
    ∀ fin, fin =
        singleLoop I p fuel ⟨orders.filter (fun o => o.state == state), [], 0, 0⟩ →
      (∀ p' pairs, singleFillOrders I p orders state fuel = .ok (p', pairs) →
        pairs = fin.chosen ∧
        (∀ of ∈ pairs, of.1 ∈ orders ∧ of.1.state = state ∧
          of.1.into_filled = some of.2) ∧
        ((fin.total_in = 0 ∧ fin.total_out = 0 ∧ p' = p) ∨
         (tokenAmountOk fin.total_in ∧
          I.with_swap p
            ⟨(match state with
              | .buy => (I.asset_x p).tokenId
              | .sell => (I.asset_y p).tokenId), fin.total_in⟩ = .ok p'))) ∧
      (¬ (fin.total_in = 0 ∧ fin.total_out = 0) → ¬ tokenAmountOk fin.total_in →
        singleFillOrders I p orders state fuel = .err .tokenAmountError) := by
  intro fin hfin
  have hinv : ∀ of ∈ fin.chosen,
      of.1 ∈ orders ∧ of.1.state = state ∧ of.1.into_filled = some of.2 := by
    subst hfin
    refine singleLoop_inv I p orders state fuel _ ?_ ?_
    · intro o ho
      have hm := List.mem_filter.mp ho
      exact ⟨hm.1, by simpa using hm.2⟩
    · intro of hof
      exact absurd hof (by simp)
  constructor
  · intro p' pairs h
    unfold singleFillOrders at h
    dsimp only at h
    rw [← hfin] at h
    split at h
    · rename_i hzero
      have h2 := PRes.ok.inj h
      have hp' : p = p' := congrArg Prod.fst h2
      have hpr : fin.chosen = pairs := congrArg Prod.snd h2
      refine ⟨hpr.symm, hpr ▸ hinv, Or.inl ⟨hzero.1, hzero.2, hp'.symm⟩⟩
    · split at h
      · rename_i htok
        split at h
        · rename_i p'' hs
          have h2 := PRes.ok.inj h
          have hp' : p'' = p' := congrArg Prod.fst h2
          have hpr : fin.chosen = pairs := congrArg Prod.snd h2
          exact ⟨hpr.symm, hpr ▸ hinv, Or.inr ⟨htok, hp' ▸ hs⟩⟩
        · exact absurd h (by simp)
        · exact absurd h (by simp)
      · exact absurd h (by simp)
  · intro hne htok
    unfold singleFillOrders
    dsimp only
    rw [← hfin]
    rw [if_neg hne, if_neg htok]

/-- Witness: a concrete Sell pass on a `SpectrumPool` that fills one order
and performs the single net swap. -/
theorem single_engine_guarantees_witness :
    w8fin =
      singleLoop spectrumLPI w8pool 2
        ⟨[w8order].filter (fun o => o.state == OrderState.sell), [], 0, 0⟩ ∧
    singleFillOrders spectrumLPI w8pool [w8order] .sell 2
      = .ok (w8pool', w8fin.chosen) ∧
    (∀ of ∈ w8fin.chosen, of.1 ∈ [w8order] ∧ of.1.state = .sell ∧
      of.1.into_filled = some of.2) :=
  ⟨by decide, by decide,
   ((single_engine_guarantees spectrumLPI w8pool [w8order] .sell 2 w8fin
       (by decide)).1 w8pool' w8fin.chosen (by decide)).2.1⟩
